import Mathlib

/-!
# Verification of the claude_usage aggregation core

A shallow embedding, in Lean 4, of the aggregation engine of the
`claude_usage` repository: the pricing resolver (`src/pricing.py`), the
daily aggregator (`src/aggregator.py`) and the multi-day composition and
hourly bucketing logic (`src/analytics.py`), together with theorems that
settle the specification claims about them.

Conventions of the embedding:

* Python numbers (`float` arithmetic) are modelled by exact rationals `ℚ`.
  Python's `round(x, n)` performs round-half-to-even on binary floats; we
  model it by exact decimal round-half-to-even (`roundDp`), which is the
  behaviour on all decimally-representable inputs.
* Python's `int(x)` truncates toward zero (`pyInt`).
* Python dictionaries are modelled by insertion-ordered association lists
  (`alUpdate` preserves the position of an existing key and appends new
  keys at the end, as CPython dicts do).
* Python strings are modelled by `String`; the string manipulation the
  code performs (`split`, `strip`, `join`, `"%.2f"` formatting, `float()`
  parsing) is implemented on the underlying `List Char`.
* Fallible operations return `Option`.
-/

namespace CU

/-! ## Rounding primitives -/

/-- Round-half-to-even of a rational to an integer (Python `round(x)`
on exactly-representable values). -/
def rhe (x : ℚ) : ℤ :=
  let f : ℤ := ⌊x⌋
  let r : ℚ := x - (f : ℚ)
  if r < 1/2 then f
  else if 1/2 < r then f + 1
  else if f % 2 = 0 then f else f + 1

/-- Python `round(x, n)`: round-half-to-even at `n` decimal digits. -/
def roundDp (n : ℕ) (x : ℚ) : ℚ := (rhe (x * 10 ^ n) : ℚ) / 10 ^ n

/-- Python `int(x)`: truncation toward zero. -/
def pyInt (x : ℚ) : ℤ := if 0 ≤ x then ⌊x⌋ else ⌈x⌉

theorem rhe_intCast (n : ℤ) : rhe (n : ℚ) = n := by
  unfold rhe
  simp

theorem roundDp_idem (n : ℕ) (x : ℚ) : roundDp n (roundDp n x) = roundDp n x := by
  unfold roundDp
  rw [div_mul_cancel₀ _ (by positivity : (10 : ℚ) ^ n ≠ 0), rhe_intCast]

theorem pyInt_intCast (n : ℤ) : pyInt (n : ℚ) = n := by
  unfold pyInt
  split <;> simp

theorem pyInt_natCast (n : ℕ) : pyInt (n : ℚ) = n := by
  simpa using pyInt_intCast (n : ℤ)

theorem rhe_zero : rhe 0 = 0 := by simpa using rhe_intCast 0

theorem roundDp_zero (n : ℕ) : roundDp n 0 = 0 := by
  unfold roundDp
  rw [zero_mul, rhe_zero]
  simp

/-- `rhe` of a nonnegative rational is nonnegative. -/
theorem rhe_nonneg {x : ℚ} (hx : 0 ≤ x) : 0 ≤ rhe x := by
  have h0 : (0 : ℤ) ≤ ⌊x⌋ := Int.floor_nonneg.mpr hx
  unfold rhe
  simp only []
  split
  · exact h0
  · split
    · omega
    · split <;> omega

/-! ## String primitives (Python `strip`, `split`, `join`, `%.2f`, `float()`)

All machinery is implemented on the underlying `List Char` of a `String`.
`pyStrip` models Python `str.strip()` (whitespace at both ends). -/

def stripL (l : List Char) : List Char :=
  ((l.dropWhile Char.isWhitespace).reverse.dropWhile Char.isWhitespace).reverse

def pyStrip (s : String) : String := ⟨stripL s.data⟩

/-- Python `s.split(c)` for a one-character separator: split at every
occurrence, keeping empty pieces. -/
def splitList (c : Char) : List Char → List (List Char)
  | [] => [[]]
  | ch :: t =>
    match splitList c t with
    | [] => [[]]
    | h :: r => if ch = c then [] :: h :: r else (ch :: h) :: r

def pySplit (c : Char) (s : String) : List String :=
  (splitList c s.data).map (fun l => ⟨l⟩)

/-- Python `s.split(sep, 1)` together with the `sep in s` test: returns the
pieces before and after the first occurrence of `sep`, or `none` if `sep`
does not occur. -/
def breakOnList (sep : List Char) : List Char → Option (List Char × List Char)
  | [] => if sep.isEmpty then some ([], []) else none
  | ch :: t =>
    if sep.isPrefixOf (ch :: t) then some ([], (ch :: t).drop sep.length)
    else
      match breakOnList sep t with
      | some (a, b) => some (ch :: a, b)
      | none => none

/-- Python `sep.join(xs)`. -/
def joinL (sep : List Char) : List (List Char) → List Char
  | [] => []
  | [x] => x
  | x :: xs => x ++ sep ++ joinL sep xs

def digitChar (d : ℕ) : Char := Char.ofNat (48 + d)

def charVal (c : Char) : ℕ := c.toNat - 48

/-- Little-endian decimal digits of `n`, structurally recursive on a fuel
bound (`fuel ≥ n` yields all digits). -/
def digitsAux : ℕ → ℕ → List ℕ
  | _, 0 => []
  | 0, _ + 1 => []
  | fuel + 1, n + 1 => (n + 1) % 10 :: digitsAux fuel ((n + 1) / 10)

/-- Decimal rendering of a natural number (digits of `toString n`). -/
def natRender (n : ℕ) : List Char :=
  if n = 0 then ['0'] else (digitsAux n n).reverse.map digitChar

/-- Two-digit zero-padded rendering (Python `f"{n:02d}"` for `n < 100`). -/
def pad2 (n : ℕ) : List Char := (if n < 10 then ['0'] else []) ++ natRender n

/-- Python `f"{x:.2f}"`: round-half-to-even at two decimals, rendered with
exactly two fractional digits and a sign taken from the input value. -/
def fmt2L (x : ℚ) : List Char :=
  let n := rhe (x * 100)
  (if x < 0 then ['-'] else []) ++
    natRender (n.natAbs / 100) ++ ['.'] ++ pad2 (n.natAbs % 100)

def fmt2 (x : ℚ) : String := ⟨fmt2L x⟩

/-- Value of a nonempty all-digit character list. -/
def digitsVal? (l : List Char) : Option ℕ :=
  if l ≠ [] ∧ l.all Char.isDigit then
    some (Nat.ofDigits 10 (l.reverse.map charVal))
  else none

/-- Python `float(s)` on plain decimal literals: optional surrounding
whitespace, optional sign, digits with an optional fractional part.
(`inf`/`nan`/exponent/underscore forms are not modelled; they never occur
in the strings this code round-trips, and on them Python raises just as
this parser returns `none`.) -/
def pyParseFloat (s : String) : Option ℚ :=
  let l := stripL s.data
  let sign : ℚ := if l.head? == some '-' then -1 else 1
  let mag : List Char := if l.head? == some '-' || l.head? == some '+' then l.tail else l
  match splitList '.' mag with
  | [ip] => (digitsVal? ip).map (fun a => sign * a)
  | [ip, fp] =>
    if ip.all Char.isDigit ∧ fp.all Char.isDigit ∧ (ip ≠ [] ∨ fp ≠ []) then
      some (sign * (((Nat.ofDigits 10 (ip.reverse.map charVal) : ℕ) : ℚ)
        + ((Nat.ofDigits 10 (fp.reverse.map charVal) : ℕ) : ℚ) / 10 ^ fp.length))
    else none
  | _ => none

/-! ## JSON-like values and records (`src/aggregator.py` data model) -/

/-- A JSON scalar/object value as carried in a record's `attributes`,
`body`, `value` and `resource` fields. -/
inductive JVal where
  | num (q : ℚ)
  | str (s : String)
  | bool (b : Bool)
  | null
  | obj (fields : List (String × JVal))

/-- Python truthiness of a value (`0`, `0.0`, `""`, `None`, `False` and
`{}` are falsy). -/
def truthy : JVal → Bool
  | .num q => decide (q ≠ 0)
  | .str s => decide (s ≠ "")
  | .bool b => b
  | .null => false
  | .obj l => !l.isEmpty

/-- Python `float(v)`. On `None` and objects Python raises `TypeError`,
and on unparsable strings `ValueError`; those executions abort the whole
aggregation and are outside the modelled domain, so they are mapped to
`0` here (no claim exercises them). -/
def pyFloat : JVal → ℚ
  | .num q => q
  | .bool b => if b then 1 else 0
  | .str s => (pyParseFloat s).getD 0
  | .null => 0
  | .obj _ => 0

/-- The string carried by a value; non-string values yield `""` (Python
would raise `TypeError` when such a value reaches `str.join` or `sorted`;
those executions are outside the modelled domain). -/
def asStr : JVal → String
  | .str s => s
  | _ => ""

/-- First-match lookup in an insertion-ordered association list
(Python `dict.get`; dict keys are unique so first match is the match). -/
def alGet : List (String × β) → String → Option β
  | [], _ => none
  | (k', v) :: t, k => if k' = k then some v else alGet t k

/-- Python `dict[k] = f(dict.get(k, d))`: updates an existing key in
place, appends a new key at the end (CPython insertion order). -/
def alUpdate : List (String × β) → String → (β → β) → β → List (String × β)
  | [], k, f, d => [(k, f d)]
  | (k', v) :: t, k, f, d =>
    if k' = k then (k', f v) :: t else (k', v) :: alUpdate t k f d

/-- One ingested telemetry record: `type`, `event`, and the `data` payload
fields the aggregator reads (`value`, `attributes`, `body`, `resource`),
plus the top-level `ts` timestamp string. Missing payload entries are
modelled by their Python defaults (`data.get("attributes", {})` etc.). -/
structure Record where
  rtype : String
  event : String
  value : Option JVal := none
  attributes : List (String × JVal) := []
  body : JVal := .obj []
  resource : List (String × JVal) := []
  ts : Option String := none

/-! ## Pricing (`src/pricing.py`) -/

/-- The static pricing table, in source order: model-id prefix ↦
(input, output, cache_read, cache_write) USD per MTok. -/
def PRICING : List (String × (ℚ × ℚ × ℚ × ℚ)) := [
  ("claude-opus-4-6",   (5, 25, 1/2, 25/4)),
  ("claude-opus-4-5",   (5, 25, 1/2, 25/4)),
  ("claude-opus-4-1",   (15, 75, 3/2, 75/4)),
  ("claude-opus-4-",    (15, 75, 3/2, 75/4)),
  ("claude-sonnet-4-5", (3, 15, 3/10, 15/4)),
  ("claude-sonnet-4-",  (3, 15, 3/10, 15/4)),
  ("claude-sonnet-3-7", (3, 15, 3/10, 15/4)),
  ("claude-haiku-4-5",  (1, 5, 1/10, 5/4)),
  ("claude-haiku-3-5",  (4/5, 4, 2/25, 1)),
  ("claude-haiku-3",    (1/4, 5/4, 3/100, 3/10))]

/-- Stable insertion (longest first) for `sorted(keys, key=len, reverse=True)`. -/
def insertByLenDesc (x : String) : List String → List String
  | [] => [x]
  | y :: ys => if y.length ≤ x.length then x :: y :: ys else y :: insertByLenDesc x ys

/-- `sorted(PRICING.keys(), key=len, reverse=True)` (stable). -/
def sortedPrefixList : List String := (PRICING.map Prod.fst).foldr insertByLenDesc []

/-- Fallback pricing (Sonnet-class) for unknown models. -/
def FALLBACK : ℚ × ℚ × ℚ × ℚ := (3, 15, 3/10, 15/4)

/-- Python `model_id.startswith(p)`. -/
def pyStartswith (model_id p : String) : Bool := p.data.isPrefixOf model_id.data

/-- `get_pricing`: longest-prefix match over the table, Sonnet-class
fallback for unknown models. (`PRICING[prefix]` cannot fail for a found
prefix, so the `getD` default is never taken.) -/
def get_pricing (model_id : String) : ℚ × ℚ × ℚ × ℚ :=
  match sortedPrefixList.find? (fun p => pyStartswith model_id p) with
  | some p => (alGet PRICING p).getD FALLBACK
  | none => FALLBACK

/-- `calculate_cost`: USD cost of the given token counts at the resolved
per-MTok rates. -/
def calculate_cost (model_id : String)
    (input_tokens output_tokens cache_read_tokens cache_creation_tokens : ℚ) : ℚ :=
  let r := get_pricing model_id
  input_tokens * r.1 / 1000000 + output_tokens * r.2.1 / 1000000
    + cache_read_tokens * r.2.2.1 / 1000000 + cache_creation_tokens * r.2.2.2 / 1000000

mutual

/-- Python `==` on scalar values (`True == 1`, `0 == 0.0`). Python compares
dicts order-insensitively; object-valued comparisons are not exercised by
any modelled claim, and are compared structurally here. -/
def pyEq : JVal → JVal → Bool
  | .num a, .num b => a == b
  | .num a, .bool b => a == (if b then (1 : ℚ) else 0)
  | .bool a, .num b => (if a then (1 : ℚ) else 0) == b
  | .bool a, .bool b => a == b
  | .str a, .str b => a == b
  | .null, .null => true
  | .obj a, .obj b => pyEqFields a b
  | _, _ => false

def pyEqFields : List (String × JVal) → List (String × JVal) → Bool
  | [], [] => true
  | (k, v) :: t, (k', v') :: t' => k == k' && pyEq v v' && pyEqFields t t'
  | _, _ => false

end

/-- Python `a or b` over optional values (`None` and falsy values fall
through to `b`). -/
def pyOr (a b : Option JVal) : Option JVal :=
  match a with
  | some v => if truthy v then some v else b
  | none => b

/-! ## Calendar dates (`datetime.date`) -/

structure PyDate where
  year : ℕ
  month : ℕ
  day : ℕ
deriving DecidableEq

def isLeap (y : ℕ) : Bool := y % 4 == 0 && (y % 100 != 0 || y % 400 == 0)

/-- `calendar.monthrange(y, m)[1]`: number of days of a month. -/
def daysInMonth (y m : ℕ) : ℕ :=
  if m = 2 then (if isLeap y then 29 else 28)
  else if m = 4 ∨ m = 6 ∨ m = 9 ∨ m = 11 then 30
  else 31

/-- Four-digit zero-padded rendering (`f"{n:04d}"` for `n < 10000`). -/
def pad4 (n : ℕ) : List Char :=
  (if n < 10 then ['0', '0', '0'] else if n < 100 then ['0', '0']
   else if n < 1000 then ['0'] else []) ++ natRender n

/-- `date.isoformat()`: `YYYY-MM-DD`. -/
def isoDate (d : PyDate) : List Char :=
  pad4 d.year ++ ['-'] ++ pad2 d.month ++ ['-'] ++ pad2 d.day

def isoDateS (d : PyDate) : String := ⟨isoDate d⟩

/-- `date + timedelta(days=1)`. -/
def dateSucc (d : PyDate) : PyDate :=
  if d.day < daysInMonth d.year d.month then ⟨d.year, d.month, d.day + 1⟩
  else if d.month < 12 then ⟨d.year, d.month + 1, 1⟩
  else ⟨d.year + 1, 1, 1⟩

def daysBeforeMonth (y m : ℕ) : ℕ :=
  (List.range (m - 1)).foldl (fun a i => a + daysInMonth y (i + 1)) 0

/-- Gregorian day number (proleptic, day 1 = 0001-01-01). -/
def toRata (d : PyDate) : ℕ :=
  (d.year - 1) * 365 + ((d.year - 1) / 4 - (d.year - 1) / 100 + (d.year - 1) / 400)
    + daysBeforeMonth d.year d.month + d.day

/-- Number of loop iterations of `while current <= end` starting at `s`. -/
def rangeDays (s e : PyDate) : ℕ := toRata e + 1 - toRata s

/-- The calendar days from `s` to `e` inclusive, in order. -/
def dateList (s e : PyDate) : List PyDate :=
  (List.range (rangeDays s e)).map (fun i => dateSucc^[i] s)

/-! ## Daily aggregator (`src/aggregator.py`) -/

/-- `load_records`: `none` models a missing day file; otherwise each line
is stripped, blank lines are skipped, and the rest are parsed (`json.loads`
is abstracted by the `parse` argument; a malformed line raises in Python
and is outside the modelled executions). -/
def load_records (parse : String → Record) (file : Option (List String)) : List Record :=
  match file with
  | none => []
  | some lines => lines.filterMap (fun line =>
      let l := pyStrip line
      if l = "" then none else some (parse l))

def matchesFilter (r : Record) (attr_filter : List (String × JVal)) : Bool :=
  attr_filter.all (fun kv =>
    match alGet r.attributes kv.1 with
    | some v => pyEq v kv.2
    | none => false)

/-- `_metric_sum`: sum of `value` over metric records matching `name` and
the optional attribute filter (empty filter = no filtering, as in Python's
`if attr_filter:`). A JSON-`null` value behaves like a missing one. -/
def _metric_sum (records : List Record) (name : String)
    (attr_filter : List (String × JVal)) : ℚ :=
  records.foldl (fun total r =>
    if r.rtype == "metric" && r.event == name
        && (attr_filter.isEmpty || matchesFilter r attr_filter) then
      match r.value with
      | some .null => total
      | some v => total + pyFloat v
      | none => total
    else total) 0

def _event_records (records : List Record) (event_name : String) : List Record :=
  records.filter (fun r => r.rtype == "log" && r.event == event_name)

def _event_count (records : List Record) (event_name : String) : ℕ :=
  (_event_records records event_name).length

/-- Lookup of `k` in the record's `body` when the body is a dict. -/
def bodyGet (r : Record) (k : String) : Option JVal :=
  match r.body with
  | .obj l => alGet l k
  | _ => none

/-- `attrs.get(k) or (body.get(k) if isinstance(body, dict) else None)`:
the body fallback fires when the attribute is missing OR falsy. -/
def extractAttr (r : Record) (k : String) : Option JVal :=
  pyOr (alGet r.attributes k) (bodyGet r k)

def _sum_attr (records : List Record) (event_name attr_key : String) : ℚ :=
  (((_event_records records event_name).filterMap
    (fun r => extractAttr r attr_key)).map pyFloat).sum

def _avg_attr (records : List Record) (event_name attr_key : String) : ℚ :=
  let values := ((_event_records records event_name).filterMap
    (fun r => extractAttr r attr_key)).map pyFloat
  if values.isEmpty then 0 else values.sum / values.length

/-- `src = attrs if attrs else (body if isinstance(body, dict) else {})`:
the whole attributes dict falls back to the body only when empty. -/
def recSrc (r : Record) : List (String × JVal) :=
  if r.attributes.isEmpty then
    match r.body with
    | .obj l => l
    | _ => []
  else r.attributes

def toolName (r : Record) : String :=
  asStr ((alGet (recSrc r) "tool_name").getD ((alGet (recSrc r) "tool").getD (.str "unknown")))

def toolSuccess (r : Record) : Bool :=
  truthy ((alGet (recSrc r) "success").getD ((alGet (recSrc r) "is_success").getD (.bool true)))

def counterAdd (c : List (String × ℕ)) (k : String) : List (String × ℕ) :=
  alUpdate c k (· + 1) 0

def toolCounter (tool_events : List Record) : List (String × ℕ) :=
  tool_events.foldl (fun c r => counterAdd c (toolName r)) []

/-- Stable insertion by descending count (`Counter.most_common` ranking:
ties keep insertion order). -/
def insertCountDesc (x : String × ℕ) : List (String × ℕ) → List (String × ℕ)
  | [] => [x]
  | y :: ys => if y.2 ≤ x.2 then x :: y :: ys else y :: insertCountDesc x ys

def mostCommon3 (c : List (String × ℕ)) : List (String × ℕ) :=
  (c.foldr insertCountDesc []).take 3

/-- Stable insertion by ascending key (`sorted(d.items())`; dict keys are
unique, so comparison never reaches the values). -/
def insertKeyAsc (x : String × β) : List (String × β) → List (String × β)
  | [] => [x]
  | y :: ys => if ¬ y.1 < x.1 then x :: y :: ys else y :: insertKeyAsc x ys

def sortByKey (l : List (String × β)) : List (String × β) := l.foldr insertKeyAsc []

structure ModelDetail where
  input_tokens : ℤ := 0
  output_tokens : ℤ := 0
  cache_read_tokens : ℤ := 0
  cache_creation_tokens : ℤ := 0
  cost : ℚ := 0
deriving DecidableEq

def recModel (r : Record) : String :=
  asStr ((alGet (recSrc r) "model").getD (.str "unknown"))

/-- `float(src.get(k, 0))` for one token kind of one `api_request` record. -/
def recTok (r : Record) (k : String) : ℚ :=
  pyFloat ((alGet (recSrc r) k).getD (.num 0))

def recCost (r : Record) : ℚ :=
  calculate_cost (recModel r) (recTok r "input_tokens") (recTok r "output_tokens")
    (recTok r "cache_read_tokens") (recTok r "cache_creation_tokens")

def addModelRec (md : ModelDetail) (r : Record) : ModelDetail :=
  { input_tokens := md.input_tokens + pyInt (recTok r "input_tokens")
    output_tokens := md.output_tokens + pyInt (recTok r "output_tokens")
    cache_read_tokens := md.cache_read_tokens + pyInt (recTok r "cache_read_tokens")
    cache_creation_tokens := md.cache_creation_tokens + pyInt (recTok r "cache_creation_tokens")
    cost := md.cost + recCost r }

/-- The per-model breakdown loop of `aggregate`, before cost rounding. -/
def modelDetailsRaw (records : List Record) : List (String × ModelDetail) :=
  (_event_records records "api_request").foldl
    (fun d r => alUpdate d (recModel r) (fun md => addModelRec md r) {}) []

def mapVals (f : β → β) (l : List (String × β)) : List (String × β) :=
  l.map (fun p => (p.1, f p.2))

def roundDetail (md : ModelDetail) : ModelDetail := { md with cost := roundDp 6 md.cost }

def model_details (records : List Record) : List (String × ModelDetail) :=
  mapVals roundDetail (modelDetailsRaw records)

/-- `", ".join(f"{m}: ${md[cost]:.2f}" for m, md in sorted(items))`. -/
def breakdownString (md : List (String × ModelDetail)) : String :=
  ⟨joinL ", ".data ((sortByKey md).map (fun p => p.1.data ++ (": $".data ++ fmt2L p.2.cost)))⟩

/-- The distinct session ids (`session.id` or `service.instance.id`
resource values), deduplicated by Python `==` as a `set` would. -/
def sessionIds (records : List Record) : List JVal :=
  records.foldl (fun ids r =>
    match pyOr (alGet r.resource "session.id") (alGet r.resource "service.instance.id") with
    | some v =>
      if truthy v then (if ids.any (fun w => pyEq w v) then ids else ids ++ [v]) else ids
    | none => ids) []

structure DaySummary where
  date : String
  sessions : ℤ
  active_time : ℚ
  user_prompts : ℤ
  api_calls : ℤ
  total_cost : ℚ
  input_tokens : ℤ
  output_tokens : ℤ
  cache_read_tokens : ℤ
  cache_creation_tokens : ℤ
  total_tokens : ℤ
  lines_added : ℤ
  lines_removed : ℤ
  commits : ℤ
  pull_requests : ℤ
  tool_calls : ℤ
  tool_success_rate : ℚ
  top_tools : String
  api_errors : ℤ
  avg_api_duration : ℚ
  model_breakdown : String
  model_details : List (String × ModelDetail)
deriving DecidableEq

/-- The summary record built by `aggregate` for a day with records. -/
def aggregateSummary (target_date : PyDate) (records : List Record) : DaySummary :=
  let input_tokens := _sum_attr records "api_request" "input_tokens"
  let output_tokens := _sum_attr records "api_request" "output_tokens"
  let cache_read := _sum_attr records "api_request" "cache_read_tokens"
  let cache_creation := _sum_attr records "api_request" "cache_creation_tokens"
  let tool_events := _event_records records "tool_result"
  let total_tool_calls := tool_events.length
  let tool_success := (tool_events.filter toolSuccess).length
  let tool_success_rate : ℚ :=
    if total_tool_calls ≠ 0 then (tool_success : ℚ) / (total_tool_calls : ℚ) * 100 else 0
  let md := model_details records
  let session_count := _metric_sum records "session.count" []
  let session_count : ℚ :=
    if session_count = 0 then
      (if (sessionIds records).length = 0 then 1 else ((sessionIds records).length : ℚ))
    else session_count
  { date := isoDateS target_date
    sessions := pyInt session_count
    active_time := roundDp 2 (_metric_sum records "active_time.total" [] / 3600)
    user_prompts := (_event_count records "user_prompt" : ℤ)
    api_calls := (_event_count records "api_request" : ℤ)
    total_cost := roundDp 4 ((md.map (fun p => p.2.cost)).sum)
    input_tokens := pyInt input_tokens
    output_tokens := pyInt output_tokens
    cache_read_tokens := pyInt cache_read
    cache_creation_tokens := pyInt cache_creation
    total_tokens := pyInt (input_tokens + output_tokens + cache_read + cache_creation)
    lines_added := pyInt (_metric_sum records "lines_of_code.count" [("type", .str "added")])
    lines_removed := pyInt (_metric_sum records "lines_of_code.count" [("type", .str "removed")])
    commits := pyInt (_metric_sum records "commit.count" [])
    pull_requests := pyInt (_metric_sum records "pull_request.count" [])
    tool_calls := (total_tool_calls : ℤ)
    tool_success_rate := roundDp 1 tool_success_rate
    top_tools := ⟨joinL ", ".data ((mostCommon3 (toolCounter tool_events)).map (fun p => p.1.data))⟩
    api_errors := (_event_count records "api_error" : ℤ)
    avg_api_duration := roundDp 1 (_avg_attr records "api_request" "duration_ms")
    model_breakdown := breakdownString md
    model_details := md }

/-- `aggregate(target_date)`, as a function of the day's loaded records:
`none` models the empty dict returned when there are no records. -/
def aggregate (target_date : PyDate) (records : List Record) : Option DaySummary :=
  if records.isEmpty then none else some (aggregateSummary target_date records)

/-! ## Multi-day composition (`src/analytics.py`)

Summary fields are native numbers in this embedding, so `_to_float` (which
normalizes numbers and currency/percent strings arriving from a
round-tripped spreadsheet row) is the identity and is inlined below. -/

def _empty_day (date_str : String) : DaySummary :=
  { date := date_str, sessions := 0, active_time := 0, user_prompts := 0,
    api_calls := 0, total_cost := 0, input_tokens := 0, output_tokens := 0,
    cache_read_tokens := 0, cache_creation_tokens := 0, total_tokens := 0,
    lines_added := 0, lines_removed := 0, commits := 0, pull_requests := 0,
    tool_calls := 0, tool_success_rate := 0, top_tools := "", api_errors := 0,
    avg_api_duration := 0, model_breakdown := "", model_details := [] }

structure PeriodSummary where
  date : String
  sessions : ℤ
  active_time : ℚ
  avg_active_time_per_day : ℚ
  user_prompts : ℤ
  api_calls : ℤ
  total_cost : ℚ
  input_tokens : ℤ
  output_tokens : ℤ
  cache_read_tokens : ℤ
  cache_creation_tokens : ℤ
  total_tokens : ℤ
  lines_added : ℤ
  lines_removed : ℤ
  commits : ℤ
  pull_requests : ℤ
  tool_calls : ℤ
  tool_success_rate : ℚ
  top_tools : String
  api_errors : ℤ
  avg_api_duration : ℚ
  model_breakdown : String
  model_details : List (String × ModelDetail)
deriving DecidableEq

/-- The tool-tally loop of `_compute_aggregate`: each day's rendered
`Top Tools` string is split on commas, entries are stripped, and each
nonempty name counts one appearance. -/
def allToolsCounter (daily_stats : List DaySummary) : List (String × ℕ) :=
  daily_stats.foldl (fun c d =>
    if d.top_tools ≠ "" then
      ((splitList ',' d.top_tools.data).map stripL).foldl
        (fun c t => if t ≠ [] then counterAdd c ⟨t⟩ else c) c
    else c) []

/-- The model-cost re-parsing loop of `_compute_aggregate`: each day's
rendered `Model Breakdown` string is split on commas; a piece containing
`": $"` is split once at it, the model name is stripped, and a parseable
cost is accumulated (unparsable costs are skipped). -/
def allModelCosts (daily_stats : List DaySummary) : List (String × ℚ) :=
  daily_stats.foldl (fun acc d =>
    if d.model_breakdown ≠ "" then
      (splitList ',' d.model_breakdown.data).foldl (fun acc rawPart =>
        let part := stripL rawPart
        match breakOnList ": $".data part with
        | some (ml, cl) =>
          match pyParseFloat ⟨cl⟩ with
          | some cost => alUpdate acc ⟨stripL ml⟩ (· + cost) 0
          | none => acc
        | none => acc) acc
    else acc) []

/-- The per-piece body of the model-cost re-parsing loop, as a named
function (definitionally the fold body of `allModelCosts`). -/
def modelStep (acc : List (String × ℚ)) (rawPart : List Char) : List (String × ℚ) :=
  match breakOnList ": $".data (stripL rawPart) with
  | some (ml, cl) =>
    match pyParseFloat ⟨cl⟩ with
    | some cost => alUpdate acc ⟨stripL ml⟩ (· + cost) 0
    | none => acc
  | none => acc

def addDetails (md dd : ModelDetail) : ModelDetail :=
  { input_tokens := md.input_tokens + pyInt (dd.input_tokens : ℚ)
    output_tokens := md.output_tokens + pyInt (dd.output_tokens : ℚ)
    cache_read_tokens := md.cache_read_tokens + pyInt (dd.cache_read_tokens : ℚ)
    cache_creation_tokens := md.cache_creation_tokens + pyInt (dd.cache_creation_tokens : ℚ)
    cost := md.cost + dd.cost }

/-- The structured `model_details` merge loop of `_compute_aggregate`,
before cost rounding. -/
def mergedDetailsRaw (daily_stats : List DaySummary) : List (String × ModelDetail) :=
  daily_stats.foldl (fun acc d =>
    d.model_details.foldl (fun acc p => alUpdate acc p.1 (fun md => addDetails md p.2) {}) acc) []

def mergedDetails (daily_stats : List DaySummary) : List (String × ModelDetail) :=
  mapVals roundDetail (mergedDetailsRaw daily_stats)

/-- `_compute_aggregate(daily_stats, start_date, end_date)`. -/
def _compute_aggregate (daily_stats : List DaySummary) (start_date end_date : PyDate) :
    PeriodSummary :=
  let days_with_data := daily_stats.length
  let total_sessions := (daily_stats.map (fun d => (d.sessions : ℚ))).sum
  let total_api_calls := (daily_stats.map (fun d => (d.api_calls : ℚ))).sum
  let total_cost := (daily_stats.map (fun d => d.total_cost)).sum
  let total_input_tokens := (daily_stats.map (fun d => (d.input_tokens : ℚ))).sum
  let total_output_tokens := (daily_stats.map (fun d => (d.output_tokens : ℚ))).sum
  let total_cache_read := (daily_stats.map (fun d => (d.cache_read_tokens : ℚ))).sum
  let total_cache_creation := (daily_stats.map (fun d => (d.cache_creation_tokens : ℚ))).sum
  let total_tokens := (daily_stats.map (fun d => (d.total_tokens : ℚ))).sum
  let total_lines_added := (daily_stats.map (fun d => (d.lines_added : ℚ))).sum
  let total_lines_removed := (daily_stats.map (fun d => (d.lines_removed : ℚ))).sum
  let total_commits := (daily_stats.map (fun d => (d.commits : ℚ))).sum
  let total_prs := (daily_stats.map (fun d => (d.pull_requests : ℚ))).sum
  let total_tool_calls := (daily_stats.map (fun d => (d.tool_calls : ℚ))).sum
  let total_api_errors := (daily_stats.map (fun d => (d.api_errors : ℚ))).sum
  let total_user_prompts := (daily_stats.map (fun d => (d.user_prompts : ℚ))).sum
  let total_active_time := (daily_stats.map (fun d => d.active_time)).sum
  let avg_active_time_per_day :=
    if days_with_data > 0 then total_active_time / (days_with_data : ℚ) else 0
  let total_tool_success_weighted :=
    (daily_stats.map (fun d => d.tool_success_rate * (d.tool_calls : ℚ))).sum
  let avg_tool_success_rate :=
    if total_tool_calls > 0 then total_tool_success_weighted / total_tool_calls else 0
  let total_duration_weighted :=
    (daily_stats.map (fun d => d.avg_api_duration * (d.api_calls : ℚ))).sum
  let avg_api_duration :=
    if total_api_calls > 0 then total_duration_weighted / total_api_calls else 0
  let all_model_costs := allModelCosts daily_stats
  { date := ⟨isoDate start_date ++ (" to ".data ++ isoDate end_date)⟩
    sessions := pyInt total_sessions
    active_time := roundDp 2 total_active_time
    avg_active_time_per_day := roundDp 2 avg_active_time_per_day
    user_prompts := pyInt total_user_prompts
    api_calls := pyInt total_api_calls
    total_cost := roundDp 4 total_cost
    input_tokens := pyInt total_input_tokens
    output_tokens := pyInt total_output_tokens
    cache_read_tokens := pyInt total_cache_read
    cache_creation_tokens := pyInt total_cache_creation
    total_tokens := pyInt total_tokens
    lines_added := pyInt total_lines_added
    lines_removed := pyInt total_lines_removed
    commits := pyInt total_commits
    pull_requests := pyInt total_prs
    tool_calls := pyInt total_tool_calls
    tool_success_rate := roundDp 1 avg_tool_success_rate
    top_tools := ⟨joinL ", ".data ((mostCommon3 (allToolsCounter daily_stats)).map (fun p => p.1.data))⟩
    api_errors := pyInt total_api_errors
    avg_api_duration := roundDp 1 avg_api_duration
    model_breakdown := ⟨joinL ", ".data ((sortByKey all_model_costs).map
      (fun p => p.1.data ++ (": $".data ++ fmt2L p.2)))⟩
    model_details := mergedDetails daily_stats }

structure RangeResult where
  period_start : String
  period_end : String
  days_count : ℤ
  days_with_data : ℕ
  aggregate : Option PeriodSummary
  daily : List DaySummary
deriving DecidableEq

/-- `aggregate_range(start, end)`: the event store is abstracted as the
per-day record lists the `aggregator.load_records` calls return. -/
def aggregate_range (store : PyDate → List Record) (start_date end_date : PyDate) :
    RangeResult :=
  let daily_stats := (dateList start_date end_date).filterMap (fun d => aggregate d (store d))
  if daily_stats.isEmpty then
    { period_start := isoDateS start_date, period_end := isoDateS end_date,
      days_count := (toRata end_date : ℤ) + 1 - (toRata start_date : ℤ),
      days_with_data := 0, aggregate := none, daily := [] }
  else
    { period_start := isoDateS start_date, period_end := isoDateS end_date,
      days_count := (toRata end_date : ℤ) + 1 - (toRata start_date : ℤ),
      days_with_data := daily_stats.length,
      aggregate := some (_compute_aggregate daily_stats start_date end_date),
      daily := daily_stats }

/-- Modelled from the spec: `sheets.read_month_data` is called by
`aggregate_month` but absent from the source tree. Per the spec, the
spreadsheet store's "Read-month operation returns a mapping date→row for
fallback use", with rows in Daily Summary shape; it is modelled as an
abstract mapping from date string to an optional row. -/
def SheetsMonth : Type := String → Option DaySummary

structure MonthResult where
  period_start : String
  period_end : String
  days_count : ℤ
  days_with_data : ℕ
  aggregate : Option PeriodSummary
  daily : List DaySummary
  period_type : String
  month : String
deriving DecidableEq

/-- `f"{year}-{month:02d}-{day:02d}"` (note: the year is not zero-padded
here, unlike `date.isoformat()`). -/
def monthDateStr (year month day : ℕ) : String :=
  ⟨natRender year ++ ['-'] ++ pad2 month ++ ['-'] ++ pad2 day⟩

/-- `aggregate_month(year, month)` with the event store and the
spreadsheet month mapping as abstract inputs. -/
def aggregate_month (store : PyDate → List Record) (read_month_data : SheetsMonth)
    (year month : ℕ) : MonthResult :=
  let start_date : PyDate := ⟨year, month, 1⟩
  let last_day := daysInMonth year month
  let end_date : PyDate := ⟨year, month, last_day⟩
  let result := aggregate_range store start_date end_date
  let jsonl_dates := result.daily.map (fun d => (d.date, d))
  let full_daily := (List.range last_day).map (fun i =>
    let date_str := monthDateStr year month (i + 1)
    match alGet jsonl_dates date_str with
    | some d => d
    | none =>
      match read_month_data date_str with
      | some d => d
      | none => _empty_day date_str)
  let data_days := full_daily.filter (fun d => d.total_cost > 0 || (d.api_calls : ℚ) > 0)
  { period_start := result.period_start
    period_end := result.period_end
    days_count := result.days_count
    days_with_data := if data_days.isEmpty then result.days_with_data else data_days.length
    aggregate := if data_days.isEmpty then result.aggregate
      else some (_compute_aggregate data_days start_date end_date)
    daily := full_daily
    period_type := "month"
    month := ⟨natRender year ++ ['-'] ++ pad2 month⟩ }

/-! ## Hourly bucketing (`src/analytics.py`) -/

/-- Hour extraction of `datetime.fromisoformat(ts.replace("Z", "+00:00")).hour`:
for an ISO-8601 string with a time part (`YYYY-MM-DD[T ]HH...`) the
two-digit hour if it is `< 24`; for a bare 10-character date, hour 0;
otherwise `none` (Python raises `ValueError` and the record is skipped).
Full calendar validation of the date digits is not re-modelled, and the
`Z` replacement only rewrites the timezone suffix, which the hour does not
depend on. -/
def tsHour (s : String) : Option ℕ :=
  match s.data with
  | [_, _, _, _, '-', _, _, '-', _, _] => some 0
  | _ :: _ :: _ :: _ :: '-' :: _ :: _ :: '-' :: _ :: _ :: sep :: h1 :: h2 :: _ =>
    if (sep = 'T' ∨ sep = ' ') ∧ h1.isDigit ∧ h2.isDigit
        ∧ charVal h1 * 10 + charVal h2 < 24 then
      some (charVal h1 * 10 + charVal h2)
    else none
  | _ => none

/-- `_bucket_by_hour(records)[h]`: the records whose timestamp parses to
hour `h`, in order (missing/empty/unparseable timestamps are dropped). -/
def _bucket_by_hour (records : List Record) (h : ℕ) : List Record :=
  records.filter (fun r =>
    match r.ts with
    | some t => tsHour t == some h
    | none => false)

structure HourBucket where
  hour : ℕ
  time_range : String
  api_calls : ℤ
  input_tokens : ℤ
  output_tokens : ℤ
  cache_read_tokens : ℤ
  cache_creation_tokens : ℤ
  total_tokens : ℤ
  total_cost : ℚ
  tool_calls : ℤ
  avg_duration_ms : ℚ
deriving DecidableEq

structure HourlyResult where
  date : String
  granularity : String
  timezone : String
  hourly : List HourBucket
deriving DecidableEq

/-- The per-hour summary of `aggregate_hourly` for hour bucket `hour`. -/
def hourStat (records : List Record) (hour : ℕ) : HourBucket :=
  let hr := _bucket_by_hour records hour
  let input_tokens := _sum_attr hr "api_request" "input_tokens"
  let output_tokens := _sum_attr hr "api_request" "output_tokens"
  let cache_read := _sum_attr hr "api_request" "cache_read_tokens"
  let cache_creation := _sum_attr hr "api_request" "cache_creation_tokens"
  { hour := hour
    time_range := ⟨pad2 hour ++ (":00-".data ++ pad2 (hour + 1) ++ ":00".data)⟩
    api_calls := (_event_count hr "api_request" : ℤ)
    input_tokens := pyInt input_tokens
    output_tokens := pyInt output_tokens
    cache_read_tokens := pyInt cache_read
    cache_creation_tokens := pyInt cache_creation
    total_tokens := pyInt (input_tokens + output_tokens + cache_read + cache_creation)
    total_cost := roundDp 4 (_sum_attr hr "api_request" "cost_usd")
    tool_calls := (_event_count hr "tool_result" : ℤ)
    avg_duration_ms := roundDp 1 (_avg_attr hr "api_request" "duration_ms") }

/-- `aggregate_hourly(target_date)` as a function of the day's records. -/
def aggregate_hourly (target_date : PyDate) (records : List Record)
    (granularity : String) : HourlyResult :=
  if records.isEmpty then
    { date := isoDateS target_date, granularity := granularity, timezone := "UTC", hourly := [] }
  else
    { date := isoDateS target_date, granularity := granularity, timezone := "UTC",
      hourly := (List.range 24).map (hourStat records) }

/-- The all-zero hour bucket entry for hour `h` (what `aggregate_hourly`
emits for an hour with no records). -/
def zeroBucket (hour : ℕ) : HourBucket :=
  { hour := hour
    time_range := ⟨pad2 hour ++ (":00-".data ++ pad2 (hour + 1) ++ ":00".data)⟩
    api_calls := 0, input_tokens := 0, output_tokens := 0, cache_read_tokens := 0
    cache_creation_tokens := 0, total_tokens := 0, total_cost := 0, tool_calls := 0
    avg_duration_ms := 0 }

/-! ## Concrete inputs used by witnesses and counterexamples -/

/-- An `api_request` record whose `input_tokens` attribute is the falsy
`0` while its body carries `42` under the same key. -/
def fallbackProbeRec : Record :=
  { rtype := "log", event := "api_request",
    attributes := [("input_tokens", .num 0)],
    body := .obj [("input_tokens", .num 42)] }

/-- A day with tool success rate 10% from a single tool call. -/
def rateDayA : DaySummary :=
  { _empty_day "2025-06-01" with tool_success_rate := 10, tool_calls := 1 }

/-- A day with tool success rate 0% from two tool calls. -/
def rateDayB : DaySummary := { _empty_day "2025-06-02" with tool_calls := 2 }

/-- One day of a uniform week: rate 95.5%, 3 tool calls. -/
def uniformDay (n : ℕ) : DaySummary :=
  { _empty_day (monthDateStr 2025 6 n) with tool_success_rate := 191/2, tool_calls := 3 }

/-- Seven days with uniform tool success rate 95.5% and uniform call count 3. -/
def uniformWeek : List DaySummary :=
  [uniformDay 1, uniformDay 2, uniformDay 3, uniformDay 4, uniformDay 5,
   uniformDay 6, uniformDay 7]

/-- The pricing-table-derived cost of model `m` on a day: the sum, over
the day's `api_request` records resolving to `m`, of `calculate_cost`
applied to that record's own token counts. -/
def pricedCost (m : String) (records : List Record) : ℚ :=
  (((_event_records records "api_request").filter (fun r => recModel r == m)).map recCost).sum

/-- An `api_request` record carrying fractional token values (JSON
numbers are not required to be whole). -/
def fracTokensRec : Record :=
  { rtype := "log", event := "api_request",
    attributes := [("input_tokens", .num (1/2)), ("output_tokens", .num (1/2))] }

/-- The first `api_request` record of the spec's worked scenario. -/
def specRec1 : Record :=
  { rtype := "log", event := "api_request",
    attributes := [("model", .str "claude-sonnet-4-5-20250929"),
      ("input_tokens", .num 1000), ("output_tokens", .num 500)] }

/-- The period model-breakdown string the spec prescribes: derived fresh
from the merged structured per-model costs (`model_details` merge), sorted
by model name — stated for comparison with what `_compute_aggregate`
actually renders. -/
def modelBreakdownOfDetails_spec (daily_stats : List DaySummary) : String :=
  breakdownString (mergedDetails daily_stats)

/-- A day as `aggregate` would render it for a model costing $0.006:
structured cost 0.006, rendered string `"m: $0.01"`. -/
def lossyDayA : DaySummary :=
  { _empty_day "2025-06-01" with
    model_breakdown := "m: $0.01"
    model_details := [("m", { cost := 6/1000 })] }

/-- A second such day. -/
def lossyDayB : DaySummary :=
  { _empty_day "2025-06-02" with
    model_breakdown := "m: $0.01"
    model_details := [("m", { cost := 6/1000 })] }

/-- `lossyDayA` stripped of its structured details (string only). -/
def strOnlyDayA : DaySummary := { _empty_day "2025-06-01" with model_breakdown := "m: $0.01" }

/-- `lossyDayB` stripped of its structured details (string only). -/
def strOnlyDayB : DaySummary := { _empty_day "2025-06-02" with model_breakdown := "m: $0.01" }

/-- A tool name that round-trips through the rendered `Top Tools` string:
nonempty, comma-free, and strip-invariant. -/
def cleanToolName (t : String) : Prop :=
  t.data ≠ [] ∧ ',' ∉ t.data ∧ stripL t.data = t.data

/-- A model name that round-trips through the rendered `Model Breakdown`
string: free of the separator characters `,` and `:`, and
strip-invariant. -/
def cleanModelName (m : String) : Prop :=
  ',' ∉ m.data ∧ ':' ∉ m.data ∧ stripL m.data = m.data

/-- A `tool_result` record whose tool name contains the separator `,`. -/
def commaToolRec : Record :=
  { rtype := "log", event := "tool_result", attributes := [("tool_name", .str "a,b")] }

/-- An event store with `commaToolRec` on 2025-06-01 and nothing else. -/
def commaStore : PyDate → List Record :=
  fun d => if d = ⟨2025, 6, 1⟩ then [commaToolRec] else []

/-- The C4 comparison relation: every period field equals the day's
field, except the reformatted `date` and the period-only
`avg_active_time_per_day`. -/
def agreesWithDayExceptDate (P : PeriodSummary) (s : DaySummary) : Prop :=
  P.sessions = s.sessions ∧ P.active_time = s.active_time ∧
  P.user_prompts = s.user_prompts ∧ P.api_calls = s.api_calls ∧
  P.total_cost = s.total_cost ∧ P.input_tokens = s.input_tokens ∧
  P.output_tokens = s.output_tokens ∧ P.cache_read_tokens = s.cache_read_tokens ∧
  P.cache_creation_tokens = s.cache_creation_tokens ∧ P.total_tokens = s.total_tokens ∧
  P.lines_added = s.lines_added ∧ P.lines_removed = s.lines_removed ∧
  P.commits = s.commits ∧ P.pull_requests = s.pull_requests ∧
  P.tool_calls = s.tool_calls ∧ P.tool_success_rate = s.tool_success_rate ∧
  P.top_tools = s.top_tools ∧ P.api_errors = s.api_errors ∧
  P.avg_api_duration = s.avg_api_duration ∧ P.model_breakdown = s.model_breakdown ∧
  P.model_details = s.model_details

/-- A `tool_result` record with a clean (comma-free, strip-invariant)
tool name. -/
def c4ToolRec : Record :=
  { rtype := "log", event := "tool_result",
    attributes := [("tool_name", .str "Bash"), ("success", .bool true)] }

/-- An event store holding exactly `c4ToolRec` on every day. -/
def c4Store : PyDate → List Record := fun _ => [c4ToolRec]

/-! ## Theorems: pricing resolution (claim C1) -/

theorem insertByLenDesc_perm (x : String) (l : List String) :
    List.Perm (insertByLenDesc x l) (x :: l) := by
  induction l with
  | nil => exact List.Perm.refl _
  | cons y ys ih =>
    unfold insertByLenDesc
    split
    · exact List.Perm.refl _
    · exact ((ih.cons y).trans (List.Perm.swap x y ys))

theorem sortedPrefixList_perm : List.Perm sortedPrefixList (PRICING.map Prod.fst) := by
  unfold sortedPrefixList
  generalize PRICING.map Prod.fst = l
  induction l with
  | nil => exact List.Perm.refl _
  | cons x t ih =>
    exact (insertByLenDesc_perm x (t.foldr insertByLenDesc [])).trans (ih.cons x)

theorem sortedPrefixList_sorted :
    sortedPrefixList.Pairwise (fun a b => b.length ≤ a.length) := by
  decide

/-- `find?` on a list sorted by descending length returns a matching
element of maximal length. -/
theorem find?_longest {L : List String} {pred : String → Bool} {p : String}
    (hL : L.Pairwise (fun a b => b.length ≤ a.length))
    (h : L.find? pred = some p) :
    p ∈ L ∧ pred p = true ∧ ∀ q ∈ L, pred q = true → q.length ≤ p.length := by
  induction L with
  | nil => simp at h
  | cons a t ih =>
    by_cases ha : pred a
    · rw [List.find?_cons_of_pos _ ha] at h
      injection h with h
      subst h
      refine ⟨List.mem_cons_self _ _, ha, ?_⟩
      intro q hq _
      rcases List.mem_cons.mp hq with h | h
      · subst h; exact le_refl _
      · exact (List.pairwise_cons.mp hL).1 q h
    · rw [List.find?_cons_of_neg _ ha] at h
      obtain ⟨hp, hpred, hmax⟩ := ih (List.pairwise_cons.mp hL).2 h
      refine ⟨List.mem_cons_of_mem a hp, hpred, ?_⟩
      intro q hq hqpred
      rcases List.mem_cons.mp hq with h | h
      · subst h; exact absurd hqpred ha
      · exact hmax q h hqpred

/-- C1: for every model id, `get_pricing` returns the rate 4-tuple of the
longest pricing-table prefix that is a prefix of the id (any other
matching table prefix is no longer), and the fixed Sonnet-class fallback
`(3.00, 15.00, 0.30, 3.75)` when no prefix matches; in particular
`"claude-opus-4-12345"` resolves via `"claude-opus-4-1"` to the Opus
rates and the unknown `"some-future-model-x"` falls back. -/
theorem C1_pricing_longest_prefix (model_id : String) :
    ((∃ p ∈ PRICING.map Prod.fst, pyStartswith model_id p) →
      ∃ p ∈ PRICING.map Prod.fst, pyStartswith model_id p ∧
        get_pricing model_id = (alGet PRICING p).getD FALLBACK ∧
        ∀ q ∈ PRICING.map Prod.fst, pyStartswith model_id q → q.length ≤ p.length) ∧
    ((∀ p ∈ PRICING.map Prod.fst, ¬ pyStartswith model_id p) →
      get_pricing model_id = FALLBACK) ∧
    get_pricing "claude-opus-4-12345" = (15, 75, 3/2, 75/4) ∧
    pyStartswith "claude-opus-4-12345" "claude-opus-4-1" ∧
    get_pricing "some-future-model-x" = (3, 15, 3/10, 15/4) := by
  refine ⟨?_, ?_, by rfl, by decide, by rfl⟩
  · intro hex
    unfold get_pricing
    cases hfind : sortedPrefixList.find? (fun p => pyStartswith model_id p) with
    | none =>
      exfalso
      obtain ⟨p, hp, hpref⟩ := hex
      have := List.find?_eq_none.mp hfind p (sortedPrefixList_perm.mem_iff.mpr hp)
      simp [hpref] at this
    | some p =>
      obtain ⟨hp, hpred, hmax⟩ := find?_longest sortedPrefixList_sorted hfind
      refine ⟨p, sortedPrefixList_perm.mem_iff.mp hp, hpred, rfl, ?_⟩
      intro q hq hqpref
      exact hmax q (sortedPrefixList_perm.mem_iff.mpr hq) hqpref
  · intro hnone
    unfold get_pricing
    cases hfind : sortedPrefixList.find? (fun p => pyStartswith model_id p) with
    | none => rfl
    | some p =>
      obtain ⟨hp, hpred, _⟩ := find?_longest sortedPrefixList_sorted hfind
      exact absurd hpred (by simpa using hnone p (sortedPrefixList_perm.mem_iff.mp hp))

/-- Witness for C1: the two hypotheses of the conjuncts are discharged at
the concrete ids of the claim. -/
theorem C1_pricing_longest_prefix_witness :
    (∃ p ∈ PRICING.map Prod.fst, pyStartswith "claude-opus-4-12345" p ∧
        get_pricing "claude-opus-4-12345" = (alGet PRICING p).getD FALLBACK ∧
        ∀ q ∈ PRICING.map Prod.fst, pyStartswith "claude-opus-4-12345" q →
          q.length ≤ p.length) ∧
    get_pricing "some-future-model-x" = (3, 15, 3/10, 15/4) :=
  ⟨( C1_pricing_longest_prefix "claude-opus-4-12345").1 (by decide),
   ( C1_pricing_longest_prefix "some-future-model-x").2.1 (by decide)⟩

/-! ## Theorems: empty input handling (claim C9) -/

theorem aggregate_nil (d : PyDate) : aggregate d [] = none := rfl

/-- C9: `aggregate` returns the empty "no data" result both when the
day's event file is missing (`none`) and when the file exists but holds
only blank lines; the loaded record lists coincide, so the two situations
are indistinguishable at the public interface, and neither produces an
all-zero summary. -/
theorem C9_blank_file_is_no_data (parse : String → Record) (d : PyDate)
    (lines : List String) (hblank : ∀ l ∈ lines, pyStrip l = "") :
    load_records parse (some lines) = load_records parse none ∧
    aggregate d (load_records parse (some lines)) = none ∧
    aggregate d (load_records parse none) = none := by
  have h1 : load_records parse (some lines) = [] := by
    unfold load_records
    rw [List.filterMap_eq_nil_iff]
    intro l hl
    simp [hblank l hl]
  refine ⟨?_, ?_, aggregate_nil d⟩
  · rw [h1]; rfl
  · rw [h1]; exact aggregate_nil d

/-- Witness for C9 at a concrete two-line blank file. -/
theorem C9_blank_file_is_no_data_witness :
    load_records (fun _ => { rtype := "", event := "" }) (some ["", "  "]) =
      load_records (fun _ => { rtype := "", event := "" }) none ∧
    aggregate ⟨2025, 6, 1⟩
      (load_records (fun _ => { rtype := "", event := "" }) (some ["", "  "])) = none ∧
    aggregate ⟨2025, 6, 1⟩
      (load_records (fun _ => { rtype := "", event := "" }) none) = none :=
  C9_blank_file_is_no_data (fun _ => { rtype := "", event := "" }) ⟨2025, 6, 1⟩
    ["", "  "] (by decide)

/-! ## Theorems: attribute-to-body fallback on falsy values (claim C10) -/

/-- C10: in the token-sum and average-duration extraction, the fallback
from `attributes` to the nested `body` fires whenever the attribute value
is absent OR falsy — in particular for the integer 0: an `api_request`
record with attribute value `0` and nonzero body value `v` under the same
key contributes `v` to the sum and to the average. -/
theorem C10_falsy_attr_falls_back_to_body (r : Record) (rest : List Record)
    (k : String) (v : ℚ)
    (htype : r.rtype = "log") (hev : r.event = "api_request")
    (hattr : alGet r.attributes k = some (.num 0))
    (hbody : bodyGet r k = some (.num v)) (_hv : v ≠ 0) :
    _sum_attr (r :: rest) "api_request" k = v + _sum_attr rest "api_request" k ∧
    _avg_attr [r] "api_request" k = v := by
  have hex : extractAttr r k = some (.num v) := by
    unfold extractAttr pyOr
    rw [hattr]
    simpa [truthy] using hbody
  constructor
  · unfold _sum_attr _event_records
    simp [htype, hev, hex, pyFloat]
  · unfold _avg_attr _event_records
    simp [htype, hev, hex, pyFloat]

/-- Witness for C10: attribute `input_tokens = 0`, body `input_tokens = 42`. -/
theorem C10_falsy_attr_falls_back_to_body_witness :
    _sum_attr [fallbackProbeRec] "api_request" "input_tokens" =
      42 + _sum_attr [] "api_request" "input_tokens" ∧
    _avg_attr [fallbackProbeRec] "api_request" "input_tokens" = 42 :=
  C10_falsy_attr_falls_back_to_body fallbackProbeRec [] "input_tokens" 42
    rfl rfl rfl rfl (by norm_num)

/-! ## Theorems: hourly bucketing (claim C7) -/

theorem _sum_attr_nil (e k : String) : _sum_attr [] e k = 0 := rfl

theorem _avg_attr_nil (e k : String) : _avg_attr [] e k = 0 := rfl

theorem _event_count_nil (e : String) : _event_count [] e = 0 := rfl

/-- C7 counterexample: for a day with no records at all, `aggregate_hourly`
returns an empty `hourly` list rather than 24 zero-filled buckets. -/
theorem C7_counterexample_empty_day :
    (aggregate_hourly ⟨2025, 6, 1⟩ [] "1h").hourly = [] ∧
    (aggregate_hourly ⟨2025, 6, 1⟩ [] "1h").hourly.length ≠ 24 := by
  exact ⟨rfl, by decide⟩

/-- An hour bucket with no records aggregates to the explicit all-zero
bucket entry. -/
theorem hourStat_empty (records : List Record) (i : ℕ)
    (hb : _bucket_by_hour records i = []) : hourStat records i = zeroBucket i := by
  unfold hourStat
  rw [hb]
  simp [_sum_attr_nil, _avg_attr_nil, _event_count_nil, roundDp_zero, pyInt, zeroBucket]

/-- C7 amended: whenever the day has at least one record, `aggregate_hourly`
returns exactly 24 hour buckets, the `i`-th covering hour `i` (hours 0–23),
and every hour without records is the explicit all-zero bucket; a day with
no records instead yields the empty "no data" hourly list (see the
counterexample). -/
theorem C7_hourly_24_buckets (d : PyDate) (records : List Record) (g : String)
    (h : records ≠ []) :
    (aggregate_hourly d records g).hourly.length = 24 ∧
    ∀ i : ℕ, i < 24 →
      (aggregate_hourly d records g).hourly[i]? = some (hourStat records i) ∧
      (hourStat records i).hour = i ∧
      (_bucket_by_hour records i = [] →
        (aggregate_hourly d records g).hourly[i]? = some (zeroBucket i)) := by
  have hh : (aggregate_hourly d records g).hourly = (List.range 24).map (hourStat records) := by
    unfold aggregate_hourly
    simp [h]
  rw [hh]
  refine ⟨by simp, ?_⟩
  intro i hi
  have hget : ((List.range 24).map (hourStat records))[i]? = some (hourStat records i) := by
    simp [List.getElem?_map, List.getElem?_range hi]
  refine ⟨hget, rfl, fun hb => ?_⟩
  rw [hget, hourStat_empty records i hb]

/-- Witness for C7's amended theorem at a concrete nonempty day (the
record has no timestamp, so every hour bucket, e.g. hour 5, is empty). -/
theorem C7_hourly_24_buckets_witness :
    (aggregate_hourly ⟨2025, 6, 1⟩ [fallbackProbeRec] "1h").hourly.length = 24 ∧
    (aggregate_hourly ⟨2025, 6, 1⟩ [fallbackProbeRec] "1h").hourly[5]? =
      some (hourStat [fallbackProbeRec] 5) ∧
    (aggregate_hourly ⟨2025, 6, 1⟩ [fallbackProbeRec] "1h").hourly[5]? =
      some (zeroBucket 5) :=
  have T := C7_hourly_24_buckets ⟨2025, 6, 1⟩ [fallbackProbeRec] "1h" (by simp)
  ⟨T.1, (T.2 5 (by norm_num)).1, (T.2 5 (by norm_num)).2.2 rfl⟩

/-! ## Theorems: monthly day filling (claim C5) -/

/-- The `daily` series of `aggregate_month`, unfolded: one entry per
calendar day, from the range result if present, else the spreadsheet row,
else the explicit all-zero day. -/
theorem aggregate_month_daily (store : PyDate → List Record) (sheets : SheetsMonth)
    (year month : ℕ) :
    (aggregate_month store sheets year month).daily =
      (List.range (daysInMonth year month)).map (fun i =>
        let date_str := monthDateStr year month (i + 1)
        match alGet ((aggregate_range store ⟨year, month, 1⟩
            ⟨year, month, daysInMonth year month⟩).daily.map (fun d => (d.date, d))) date_str with
        | some d => d
        | none =>
          match sheets date_str with
          | some d => d
          | none => _empty_day date_str) := rfl

/-- C5: for a valid year and month, `aggregate_month` always produces
exactly `days_in_month` daily entries, one per calendar day, regardless of
how many days have event-store or spreadsheet data; and any day found in
neither the event-store results nor the spreadsheet mapping appears as the
explicit all-zero Daily Summary for its date. -/
theorem C5_month_has_days_in_month_entries (store : PyDate → List Record)
    (sheets : SheetsMonth) (year month : ℕ)
    (_hm1 : 1 ≤ month) (_hm2 : month ≤ 12) :
    (aggregate_month store sheets year month).daily.length = daysInMonth year month ∧
    ∀ i : ℕ, i < daysInMonth year month →
      alGet ((aggregate_range store ⟨year, month, 1⟩
          ⟨year, month, daysInMonth year month⟩).daily.map (fun d => (d.date, d)))
          (monthDateStr year month (i + 1)) = none →
      sheets (monthDateStr year month (i + 1)) = none →
      (aggregate_month store sheets year month).daily[i]? =
        some (_empty_day (monthDateStr year month (i + 1))) := by
  refine ⟨by rw [aggregate_month_daily]; simp, ?_⟩
  intro i hi h1 h2
  rw [aggregate_month_daily]
  rw [List.getElem?_map, List.getElem?_range hi]
  simp [h1, h2]

/-- Witness for C5: June 2025 with an empty event store and an empty
spreadsheet; 30 entries, the first being the all-zero day for
`"2025-06-01"`. -/
theorem C5_month_has_days_in_month_entries_witness :
    (aggregate_month (fun _ => []) (fun _ => none) 2025 6).daily.length =
      daysInMonth 2025 6 ∧
    (aggregate_month (fun _ => []) (fun _ => none) 2025 6).daily[0]? =
      some (_empty_day (monthDateStr 2025 6 1)) :=
  have T := C5_month_has_days_in_month_entries (fun _ => []) (fun _ => none) 2025 6
    (by norm_num) (by norm_num)
  ⟨T.1, T.2 0 (by decide) rfl rfl⟩

/-! ## Theorems: period tool success rate (claim C6) -/

theorem sum_map_const {α : Type} (l : List α) (f : α → ℚ) (k : ℚ)
    (h : ∀ x ∈ l, f x = k) : (l.map f).sum = l.length * k := by
  induction l with
  | nil => simp
  | cons a t ih =>
    rw [List.map_cons, List.sum_cons, h a (List.mem_cons_self _ _),
      ih (fun x hx => h x (List.mem_cons_of_mem a hx)), List.length_cons]
    push_cast
    ring

/-- A rational that is already an `n`-decimal value is a fixed point of
`roundDp n`. -/
theorem roundDp_eq_self (n : ℕ) (x : ℚ) (k : ℤ) (h : x * 10 ^ n = (k : ℚ)) :
    roundDp n x = x := by
  unfold roundDp
  rw [h, rhe_intCast, ← h, mul_div_cancel_right₀ _ (by positivity : (10 : ℚ) ^ n ≠ 0)]

/-- C6 counterexample: two days with rates 10% (1 call) and 0% (2 calls).
The weighted quotient is 10/3 %, but the composed field is the rounded
3.3 %, so the field does not equal the quotient as claimed. -/
theorem C6_counterexample_rounded_rate :
    (_compute_aggregate [rateDayA, rateDayB] ⟨2025, 6, 1⟩ ⟨2025, 6, 2⟩).tool_success_rate
        = 33/10 ∧
    (rateDayA.tool_success_rate * (rateDayA.tool_calls : ℚ)
        + rateDayB.tool_success_rate * (rateDayB.tool_calls : ℚ))
      / ((rateDayA.tool_calls : ℚ) + (rateDayB.tool_calls : ℚ)) = 10/3 ∧
    (33/10 : ℚ) ≠ 10/3 := by
  refine ⟨?_, ?_, by norm_num⟩
  · show roundDp 1 _ = 33/10
    norm_num [_compute_aggregate, rateDayA, rateDayB, _empty_day, roundDp, rhe]
  · norm_num [rateDayA, rateDayB, _empty_day]

/-- C6 amended: the composed period tool success rate is the
call-volume-weighted average `Σ(day rate × day calls) / Σ(day calls)`
rounded half-even to 1 decimal, and `0` when the total call count is not
positive; consequently composing any nonempty run of days (e.g. 7) with
uniform per-day rate `R` (a 1-decimal value, as rendered daily rates are)
and uniform positive daily call counts yields exactly `R`. -/
theorem C6_tool_success_rate_weighted (daily : List DaySummary) (s e : PyDate) :
    (_compute_aggregate daily s e).tool_success_rate =
      (if (daily.map (fun d => (d.tool_calls : ℚ))).sum > 0 then
        roundDp 1 ((daily.map (fun d => d.tool_success_rate * (d.tool_calls : ℚ))).sum
          / (daily.map (fun d => (d.tool_calls : ℚ))).sum)
       else 0) ∧
    (∀ R : ℚ, ∀ c : ℤ, 0 < c → roundDp 1 R = R → daily ≠ [] →
      (∀ d ∈ daily, d.tool_success_rate = R ∧ d.tool_calls = c) →
      (_compute_aggregate daily s e).tool_success_rate = R) := by
  have hdef : (_compute_aggregate daily s e).tool_success_rate =
      roundDp 1 (if (daily.map (fun d => (d.tool_calls : ℚ))).sum > 0 then
        (daily.map (fun d => d.tool_success_rate * (d.tool_calls : ℚ))).sum
          / (daily.map (fun d => (d.tool_calls : ℚ))).sum
       else 0) := rfl
  have hsplit : (_compute_aggregate daily s e).tool_success_rate =
      (if (daily.map (fun d => (d.tool_calls : ℚ))).sum > 0 then
        roundDp 1 ((daily.map (fun d => d.tool_success_rate * (d.tool_calls : ℚ))).sum
          / (daily.map (fun d => (d.tool_calls : ℚ))).sum)
       else 0) := by
    rw [hdef]
    split
    · rfl
    · exact roundDp_zero 1
  refine ⟨hsplit, ?_⟩
  intro R c hc hR hne huni
  have hcalls : (daily.map (fun d => (d.tool_calls : ℚ))).sum = daily.length * (c : ℚ) :=
    sum_map_const _ _ _ (fun d hd => by rw [(huni d hd).2])
  have hw : (daily.map (fun d => d.tool_success_rate * (d.tool_calls : ℚ))).sum =
      daily.length * (R * (c : ℚ)) :=
    sum_map_const _ _ _ (fun d hd => by rw [(huni d hd).1, (huni d hd).2])
  have hlen : 0 < daily.length := List.length_pos.mpr hne
  have hpos : (0 : ℚ) < daily.length * (c : ℚ) := by
    have : (0 : ℚ) < (c : ℚ) := by exact_mod_cast hc
    positivity
  rw [hsplit, hcalls, hw, if_pos hpos]
  have hq : (daily.length : ℚ) * (R * (c : ℚ)) / ((daily.length : ℚ) * (c : ℚ)) = R := by
    rw [mul_div_mul_left _ _ (by positivity : (daily.length : ℚ) ≠ 0)]
    rw [mul_div_assoc, div_self (by positivity : (c : ℚ) ≠ 0), mul_one]
  rw [hq, hR]

/-- Witness for C6's amended theorem: the uniform 7-day week at rate
95.5 % with 3 calls per day composes to exactly 95.5 %. -/
theorem C6_tool_success_rate_weighted_witness :
    (_compute_aggregate uniformWeek ⟨2025, 6, 1⟩ ⟨2025, 6, 7⟩).tool_success_rate = 191/2 :=
  (C6_tool_success_rate_weighted uniformWeek ⟨2025, 6, 1⟩ ⟨2025, 6, 7⟩).2 (191/2) 3
    (by norm_num)
    (roundDp_eq_self 1 (191/2) 955 (by norm_num))
    (by simp [uniformWeek])
    (by
      intro d hd
      simp only [uniformWeek, List.mem_cons, List.not_mem_nil, or_false] at hd
      rcases hd with h | h | h | h | h | h | h <;> subst h <;> exact ⟨rfl, rfl⟩)

/-! ## Theorems: daily total-tokens invariant (claim C2) -/

theorem aggregate_eq_some {d : PyDate} {records : List Record} {s : DaySummary}
    (hs : aggregate d records = some s) : s = aggregateSummary d records := by
  unfold aggregate at hs
  split at hs
  · cases hs
  · exact (Option.some.inj hs).symm

theorem aggregateSummary_total_tokens (d : PyDate) (records : List Record) :
    (aggregateSummary d records).total_tokens =
      pyInt (_sum_attr records "api_request" "input_tokens"
        + _sum_attr records "api_request" "output_tokens"
        + _sum_attr records "api_request" "cache_read_tokens"
        + _sum_attr records "api_request" "cache_creation_tokens") := rfl

theorem aggregateSummary_input_tokens (d : PyDate) (records : List Record) :
    (aggregateSummary d records).input_tokens =
      pyInt (_sum_attr records "api_request" "input_tokens") := rfl

theorem aggregateSummary_output_tokens (d : PyDate) (records : List Record) :
    (aggregateSummary d records).output_tokens =
      pyInt (_sum_attr records "api_request" "output_tokens") := rfl

theorem aggregateSummary_cache_read (d : PyDate) (records : List Record) :
    (aggregateSummary d records).cache_read_tokens =
      pyInt (_sum_attr records "api_request" "cache_read_tokens") := rfl

theorem aggregateSummary_cache_creation (d : PyDate) (records : List Record) :
    (aggregateSummary d records).cache_creation_tokens =
      pyInt (_sum_attr records "api_request" "cache_creation_tokens") := rfl

theorem sum_intCast (l : List ℚ) (h : ∀ x ∈ l, ∃ z : ℤ, x = (z : ℚ)) :
    ∃ z : ℤ, l.sum = (z : ℚ) := by
  induction l with
  | nil => exact ⟨0, by simp⟩
  | cons a t ih =>
    obtain ⟨za, ha⟩ := h a (List.mem_cons_self _ _)
    obtain ⟨zt, ht⟩ := ih (fun x hx => h x (List.mem_cons_of_mem a hx))
    exact ⟨za + zt, by rw [List.sum_cons, ha, ht]; push_cast; ring⟩

/-- Each token sum is an integer when every extracted token value is. -/
theorem _sum_attr_int (records : List Record) (e k : String)
    (h : ∀ r ∈ records, ∀ v, extractAttr r k = some v → ∃ z : ℤ, pyFloat v = (z : ℚ)) :
    ∃ z : ℤ, _sum_attr records e k = (z : ℚ) := by
  unfold _sum_attr
  apply sum_intCast
  intro x hx
  obtain ⟨v, hv, rfl⟩ := List.mem_map.mp hx
  obtain ⟨r, hr, hrv⟩ := List.mem_filterMap.mp hv
  exact h r (List.mem_of_mem_filter hr) v hrv

/-- C2 counterexample: a record with `input_tokens = 0.5` and
`output_tokens = 0.5` yields `Total Tokens = int(1.0) = 1` while the four
truncated token fields sum to `0`. -/
theorem C2_counterexample_fractional_tokens :
    (aggregate ⟨2025, 6, 1⟩ [fracTokensRec]).map (fun s => s.total_tokens) = some 1 ∧
    (aggregate ⟨2025, 6, 1⟩ [fracTokensRec]).map (fun s =>
      s.input_tokens + s.output_tokens + s.cache_read_tokens + s.cache_creation_tokens) =
      some 0 := by
  have hagg : aggregate ⟨2025, 6, 1⟩ [fracTokensRec] =
      some (aggregateSummary ⟨2025, 6, 1⟩ [fracTokensRec]) := rfl
  have h1 : _sum_attr [fracTokensRec] "api_request" "input_tokens" = 1/2 := by
    simp [_sum_attr, _event_records, extractAttr, pyOr, alGet, truthy, pyFloat,
      fracTokensRec, bodyGet]
  have h2 : _sum_attr [fracTokensRec] "api_request" "output_tokens" = 1/2 := by
    simp [_sum_attr, _event_records, extractAttr, pyOr, alGet, truthy, pyFloat,
      fracTokensRec, bodyGet]
  have h3 : _sum_attr [fracTokensRec] "api_request" "cache_read_tokens" = 0 := rfl
  have h4 : _sum_attr [fracTokensRec] "api_request" "cache_creation_tokens" = 0 := rfl
  constructor
  · rw [hagg, Option.map_some']
    rw [aggregateSummary_total_tokens, h1, h2, h3, h4]
    norm_num [pyInt]
  · rw [hagg, Option.map_some']
    rw [aggregateSummary_input_tokens, aggregateSummary_output_tokens,
      aggregateSummary_cache_read, aggregateSummary_cache_creation, h1, h2, h3, h4]
    norm_num [pyInt]

/-- C2 amended: the Daily Summary's `Total Tokens` is the truncation of
the exact rational sum of the four token sums; whenever every extracted
token value is a whole number (as real token counts are) the returned
integer fields satisfy
`total = input + output + cache_read + cache_creation` exactly. -/
theorem C2_total_tokens_invariant (d : PyDate) (records : List Record) (s : DaySummary)
    (hs : aggregate d records = some s)
    (hint : ∀ k ∈ (["input_tokens", "output_tokens", "cache_read_tokens",
        "cache_creation_tokens"] : List String),
      ∀ r ∈ records, ∀ v, extractAttr r k = some v → ∃ z : ℤ, pyFloat v = (z : ℚ)) :
    s.total_tokens = pyInt (_sum_attr records "api_request" "input_tokens"
        + _sum_attr records "api_request" "output_tokens"
        + _sum_attr records "api_request" "cache_read_tokens"
        + _sum_attr records "api_request" "cache_creation_tokens") ∧
    s.total_tokens = s.input_tokens + s.output_tokens + s.cache_read_tokens
      + s.cache_creation_tokens := by
  obtain rfl := aggregate_eq_some hs
  refine ⟨aggregateSummary_total_tokens d records, ?_⟩
  obtain ⟨z1, h1⟩ := _sum_attr_int records "api_request" "input_tokens"
    (hint _ (by simp))
  obtain ⟨z2, h2⟩ := _sum_attr_int records "api_request" "output_tokens"
    (hint _ (by simp))
  obtain ⟨z3, h3⟩ := _sum_attr_int records "api_request" "cache_read_tokens"
    (hint _ (by simp))
  obtain ⟨z4, h4⟩ := _sum_attr_int records "api_request" "cache_creation_tokens"
    (hint _ (by simp))
  rw [aggregateSummary_total_tokens, aggregateSummary_input_tokens,
    aggregateSummary_output_tokens, aggregateSummary_cache_read,
    aggregateSummary_cache_creation, h1, h2, h3, h4]
  have hcast : ((z1 : ℚ) + z2 + z3 + z4) = ((z1 + z2 + z3 + z4 : ℤ) : ℚ) := by push_cast; ring
  rw [hcast, pyInt_intCast, pyInt_intCast, pyInt_intCast, pyInt_intCast, pyInt_intCast]

/-- Witness for C2's amended theorem on the spec scenario record
(integer token counts). -/
theorem C2_total_tokens_invariant_witness :
    (aggregateSummary ⟨2025, 6, 1⟩ [specRec1]).total_tokens =
      (aggregateSummary ⟨2025, 6, 1⟩ [specRec1]).input_tokens
      + (aggregateSummary ⟨2025, 6, 1⟩ [specRec1]).output_tokens
      + (aggregateSummary ⟨2025, 6, 1⟩ [specRec1]).cache_read_tokens
      + (aggregateSummary ⟨2025, 6, 1⟩ [specRec1]).cache_creation_tokens :=
  (C2_total_tokens_invariant ⟨2025, 6, 1⟩ [specRec1] _ rfl (by
    intro k hk r hr v hv
    have hr1 : r = specRec1 := by simpa using hr
    subst hr1
    fin_cases hk
    · rw [show extractAttr specRec1 "input_tokens" = some (.num 1000) from rfl] at hv
      injection hv with hv
      exact ⟨1000, by rw [← hv]; norm_num [pyFloat]⟩
    · rw [show extractAttr specRec1 "output_tokens" = some (.num 500) from rfl] at hv
      injection hv with hv
      exact ⟨500, by rw [← hv]; norm_num [pyFloat]⟩
    · rw [show extractAttr specRec1 "cache_read_tokens" = none from rfl] at hv
      cases hv
    · rw [show extractAttr specRec1 "cache_creation_tokens" = none from rfl] at hv
      cases hv)).2

/-! ## Insertion-ordered dictionary lemmas -/

theorem alGet_alUpdate_self (l : List (String × β)) (k : String) (f : β → β) (dflt : β) :
    alGet (alUpdate l k f dflt) k = some (f ((alGet l k).getD dflt)) := by
  induction l with
  | nil => simp [alUpdate, alGet]
  | cons p t ih =>
    obtain ⟨k', v⟩ := p
    by_cases h : k' = k
    · subst h
      simp [alUpdate, alGet]
    · simp [alUpdate, alGet, h, ih]

theorem alGet_alUpdate_ne (l : List (String × β)) (k m : String) (f : β → β) (dflt : β)
    (hne : m ≠ k) : alGet (alUpdate l k f dflt) m = alGet l m := by
  induction l with
  | nil => simp [alUpdate, alGet, Ne.symm hne]
  | cons p t ih =>
    obtain ⟨k', v⟩ := p
    by_cases h : k' = k
    · subst h
      simp [alUpdate, alGet, Ne.symm hne, hne]
    · by_cases h2 : k' = m <;> simp [alUpdate, alGet, h, h2, ih, hne]

/-- Lookup in an accumulating fold of `alUpdate`s: the value at `m` is the
fold of `step` over exactly the items keyed `m`, started from the value in
the initial accumulator (or `zero`). -/
theorem alGet_foldUpdate {ι : Type} (key : ι → String) (step : β → ι → β) (zero : β)
    (items : List ι) (acc : List (String × β)) (m : String) :
    alGet (items.foldl (fun a it => alUpdate a (key it) (fun v => step v it) zero) acc) m =
      (match alGet acc m with
       | some v => some ((items.filter (fun it => key it == m)).foldl step v)
       | none =>
         if (items.filter (fun it => key it == m)).isEmpty then none
         else some ((items.filter (fun it => key it == m)).foldl step zero)) := by
  induction items generalizing acc with
  | nil => cases h : alGet acc m <;> simp [h]
  | cons it t ih =>
    by_cases hk : key it = m
    · subst hk
      have hfil : (it :: t).filter (fun x => key x == key it) =
          it :: t.filter (fun x => key x == key it) :=
        List.filter_cons_of_pos (by simp)
      rw [List.foldl_cons, ih, alGet_alUpdate_self, hfil]
      cases h : alGet acc (key it) <;> simp [h, List.foldl_cons]
    · have hfil : (it :: t).filter (fun x => key x == m) =
          t.filter (fun x => key x == m) :=
        List.filter_cons_of_neg (by simpa using hk)
      rw [List.foldl_cons, ih, alGet_alUpdate_ne _ _ _ _ _ (fun h => hk h.symm), hfil]

theorem alUpdate_keys (l : List (String × β)) (k : String) (f : β → β) (dflt : β) :
    (alUpdate l k f dflt).map Prod.fst =
      if k ∈ l.map Prod.fst then l.map Prod.fst else l.map Prod.fst ++ [k] := by
  induction l with
  | nil => simp [alUpdate]
  | cons p t ih =>
    obtain ⟨k', v⟩ := p
    by_cases h : k' = k
    · subst h
      simp [alUpdate]
    · simp only [alUpdate, if_neg h, List.map_cons, ih]
      by_cases hm : k ∈ t.map Prod.fst
      · rw [if_pos hm, if_pos (by simp [hm])]
      · rw [if_neg hm, if_neg (by simp [hm, Ne.symm h]), List.cons_append]

theorem alUpdate_keys_nodup (l : List (String × β)) (k : String) (f : β → β) (dflt : β)
    (h : (l.map Prod.fst).Nodup) : ((alUpdate l k f dflt).map Prod.fst).Nodup := by
  rw [alUpdate_keys]
  split
  · exact h
  · next hmem =>
    refine List.Nodup.append h (List.nodup_singleton _) ?_
    intro a ha hak
    rw [List.mem_singleton] at hak
    subst hak
    exact hmem ha

theorem foldUpdate_keys_nodup {ι : Type} (key : ι → String) (step : β → ι → β) (zero : β)
    (items : List ι) (acc : List (String × β)) (h : (acc.map Prod.fst).Nodup) :
    ((items.foldl (fun a it => alUpdate a (key it) (fun v => step v it) zero) acc).map
      Prod.fst).Nodup := by
  induction items generalizing acc with
  | nil => exact h
  | cons it t ih => exact ih _ (alUpdate_keys_nodup _ _ _ _ h)

theorem alGet_of_mem_nodup {l : List (String × β)} {m : String} {v : β}
    (hmem : (m, v) ∈ l) (hnd : (l.map Prod.fst).Nodup) : alGet l m = some v := by
  induction l with
  | nil => cases hmem
  | cons p t ih =>
    obtain ⟨k', w⟩ := p
    rw [List.map_cons, List.nodup_cons] at hnd
    rcases List.mem_cons.mp hmem with h | h
    · injection h with h1 h2
      subst h1
      subst h2
      simp [alGet]
    · have hk : k' ≠ m := by
        intro hkm
        subst hkm
        exact hnd.1 (List.mem_map.mpr ⟨(k', v), h, rfl⟩)
      simp [alGet, hk, ih h hnd.2]

/-! ## Theorems: per-model pricing-derived cost (claim C3) -/

/-- Folding `addModelRec` accumulates each token kind and the
pricing-derived cost as plain sums. -/
theorem foldl_addModelRec (l : List Record) (v : ModelDetail) :
    l.foldl addModelRec v =
      ⟨v.input_tokens + (l.map (fun r => pyInt (recTok r "input_tokens"))).sum,
       v.output_tokens + (l.map (fun r => pyInt (recTok r "output_tokens"))).sum,
       v.cache_read_tokens + (l.map (fun r => pyInt (recTok r "cache_read_tokens"))).sum,
       v.cache_creation_tokens + (l.map (fun r => pyInt (recTok r "cache_creation_tokens"))).sum,
       v.cost + (l.map recCost).sum⟩ := by
  induction l generalizing v with
  | nil => simp
  | cons r t ih =>
    rw [List.foldl_cons, ih]
    simp [addModelRec, ModelDetail.mk.injEq, add_assoc]

theorem modelDetailsRaw_nodup (records : List Record) :
    ((modelDetailsRaw records).map Prod.fst).Nodup :=
  foldUpdate_keys_nodup _ _ _ _ [] (by simp)

/-- Every entry of the raw per-model breakdown is the fold of its own
`api_request` records. -/
theorem modelDetailsRaw_mem {records : List Record} {m : String} {md : ModelDetail}
    (hmem : (m, md) ∈ modelDetailsRaw records) :
    md = ((_event_records records "api_request").filter
        (fun r => recModel r == m)).foldl addModelRec {} := by
  have hget := alGet_of_mem_nodup hmem (modelDetailsRaw_nodup records)
  rw [show modelDetailsRaw records = (_event_records records "api_request").foldl
      (fun d r => alUpdate d (recModel r) (fun v => addModelRec v r) {}) [] from rfl,
    alGet_foldUpdate] at hget
  simp only [alGet] at hget
  split at hget
  · cases hget
  · exact (Option.some.inj hget).symm

/-- C3: the Daily Summary's `Total Cost ($)` is the 4-decimal rounding of
the sum of the per-model costs in `model_details` (each itself rounded to
6 decimals), and each per-model cost is derived from the pricing table
(`calculate_cost` summed record-by-record) — not from any cost field
carried in the event stream. -/
theorem C3_total_cost_from_pricing (d : PyDate) (records : List Record) (s : DaySummary)
    (hs : aggregate d records = some s) :
    s.total_cost = roundDp 4 ((s.model_details.map (fun p => p.2.cost)).sum) ∧
    ∀ p ∈ s.model_details, p.2.cost = roundDp 6 (pricedCost p.1 records) := by
  obtain rfl := aggregate_eq_some hs
  refine ⟨rfl, ?_⟩
  intro p hp
  obtain ⟨q, hq, hpq⟩ := List.mem_map.mp hp
  obtain ⟨m, md⟩ := q
  obtain rfl : (m, roundDetail md) = p := hpq
  have hmd := modelDetailsRaw_mem hq
  rw [foldl_addModelRec] at hmd
  show (roundDetail md).cost = roundDp 6 (pricedCost m records)
  rw [hmd]
  unfold roundDetail pricedCost
  simp

/-- Witness for C3 on the spec scenario's record: one model entry, cost
rounded from the pricing table. -/
theorem C3_total_cost_from_pricing_witness :
    (aggregateSummary ⟨2025, 6, 1⟩ [specRec1]).total_cost =
      roundDp 4 (((aggregateSummary ⟨2025, 6, 1⟩ [specRec1]).model_details.map
        (fun p => p.2.cost)).sum) ∧
    (roundDetail (addModelRec {} specRec1)).cost =
      roundDp 6 (pricedCost "claude-sonnet-4-5-20250929" [specRec1]) :=
  have T := C3_total_cost_from_pricing ⟨2025, 6, 1⟩ [specRec1] _ rfl
  ⟨T.1, T.2 ("claude-sonnet-4-5-20250929", roundDetail (addModelRec {} specRec1))
    (List.mem_singleton.mpr rfl)⟩

/-! ## Theorems: period model merge (claim C8) -/

/-- `%.2f` rendering through a computed round-half-even value. -/
theorem fmt2L_of_rhe (q : ℚ) (n : ℕ) (hq : ¬ q < 0) (h : rhe (q * 100) = (n : ℤ)) :
    fmt2L q = natRender (n / 100) ++ ['.'] ++ pad2 (n % 100) := by
  simp only [fmt2L]
  rw [h, if_neg hq]
  simp [Int.natAbs_ofNat]

theorem alGet_mapVals (f : β → β) (l : List (String × β)) (m : String) :
    alGet (mapVals f l) m = (alGet l m).map f := by
  induction l with
  | nil => rfl
  | cons p t ih =>
    obtain ⟨k, v⟩ := p
    show alGet ((k, f v) :: mapVals f t) m = _
    by_cases h : k = m <;> simp [alGet, h, ih]

/-- The nested per-day fold of the model-details merge equals one flat
fold over all days' entries in order. -/
theorem mergedDetailsRaw_eq_flat (daily : List DaySummary) :
    mergedDetailsRaw daily =
      ((daily.map (fun d => d.model_details)).flatten).foldl
        (fun acc p => alUpdate acc p.1 (fun md => addDetails md p.2) {}) [] := by
  have h : ∀ acc : List (String × ModelDetail),
      daily.foldl (fun acc d =>
        d.model_details.foldl
          (fun acc p => alUpdate acc p.1 (fun md => addDetails md p.2) {}) acc) acc =
      ((daily.map (fun d => d.model_details)).flatten).foldl
        (fun acc p => alUpdate acc p.1 (fun md => addDetails md p.2) {}) acc := by
    induction daily with
    | nil => intro acc; rfl
    | cons d t ih =>
      intro acc
      rw [List.map_cons, List.flatten_cons, List.foldl_cons, List.foldl_append, ih]
  exact h []

/-- Folding `addDetails` accumulates every field as a plain sum (token
counts are integers, so the `int(float(.))` round-trip is the identity). -/
theorem foldl_addDetails (l : List (String × ModelDetail)) (v : ModelDetail) :
    l.foldl (fun md p => addDetails md p.2) v =
      ⟨v.input_tokens + (l.map (fun p => p.2.input_tokens)).sum,
       v.output_tokens + (l.map (fun p => p.2.output_tokens)).sum,
       v.cache_read_tokens + (l.map (fun p => p.2.cache_read_tokens)).sum,
       v.cache_creation_tokens + (l.map (fun p => p.2.cache_creation_tokens)).sum,
       v.cost + (l.map (fun p => p.2.cost)).sum⟩ := by
  induction l generalizing v with
  | nil => simp
  | cons p t ih =>
    rw [List.foldl_cons, ih]
    simp [addDetails, pyInt_intCast, ModelDetail.mk.injEq, add_assoc]

/-- C8 counterexample: two days, each carrying the structured detail
`cost = 0.006` for model `"m"` and the rendered string `"m: $0.01"`. The
composed period string is `"m: $0.02"` (re-parsed from the lossy strings),
while the string derived fresh from the merged structured costs (0.012,
rounded to 6 decimals) would be `"m: $0.01"`. -/
theorem C8_counterexample_string_not_from_details :
    (_compute_aggregate [lossyDayA, lossyDayB] ⟨2025, 6, 1⟩ ⟨2025, 6, 2⟩).model_breakdown
        = "m: $0.02" ∧
    modelBreakdownOfDetails_spec [lossyDayA, lossyDayB] = "m: $0.01" ∧
    (_compute_aggregate [lossyDayA, lossyDayB] ⟨2025, 6, 1⟩ ⟨2025, 6, 2⟩).model_breakdown
        ≠ modelBreakdownOfDetails_spec [lossyDayA, lossyDayB] := by
  have hp : pyParseFloat "0.01" = some (1/100) := by
    simp +decide only [pyParseFloat, stripL, splitList, digitsVal?, List.dropWhile,
      Char.isWhitespace, List.reverse, List.map, List.reverseAux, List.length,
      List.head?, List.tail, if_true, if_false]
    rw [show charVal '0' = 0 from by decide, show charVal '1' = 1 from by decide]
    norm_num [Nat.ofDigits]
  have hshape : allModelCosts [lossyDayA, lossyDayB] =
      [("m", ((0 : ℚ) + (pyParseFloat "0.01").getD 0) + (pyParseFloat "0.01").getD 0)] := rfl
  have hamc : allModelCosts [lossyDayA, lossyDayB] = [("m", 1/50)] := by
    rw [hshape, hp]
    norm_num
  have hstr : (_compute_aggregate [lossyDayA, lossyDayB] ⟨2025, 6, 1⟩
      ⟨2025, 6, 2⟩).model_breakdown = "m: $0.02" := by
    show (⟨joinL ", ".data ((sortByKey (allModelCosts [lossyDayA, lossyDayB])).map
      (fun p => p.1.data ++ (": $".data ++ fmt2L p.2)))⟩ : String) = "m: $0.02"
    rw [hamc]
    rw [show (sortByKey [("m", (1 : ℚ)/50)]).map
        (fun p => p.1.data ++ (": $".data ++ fmt2L p.2)) =
        ["m".data ++ (": $".data ++ fmt2L (1/50))] from rfl]
    rw [fmt2L_of_rhe (1/50) 2 (by norm_num) (by norm_num [rhe])]
    decide
  have hval : roundDetail (addDetails (addDetails {} ({ cost := 6/1000 } : ModelDetail))
      ({ cost := 6/1000 } : ModelDetail)) = (⟨0, 0, 0, 0, 3/250⟩ : ModelDetail) := by
    norm_num [addDetails, roundDetail, pyInt, roundDp, rhe, ModelDetail.mk.injEq]
  have hspec : modelBreakdownOfDetails_spec [lossyDayA, lossyDayB] = "m: $0.01" := by
    show breakdownString (mergedDetails [lossyDayA, lossyDayB]) = "m: $0.01"
    rw [show mergedDetails [lossyDayA, lossyDayB] =
        [("m", roundDetail (addDetails (addDetails {} ({ cost := 6/1000 } : ModelDetail))
          ({ cost := 6/1000 } : ModelDetail)))] from rfl, hval]
    show (⟨joinL ", ".data ((sortByKey [("m", (⟨0, 0, 0, 0, 3/250⟩ : ModelDetail))]).map
      (fun p => p.1.data ++ (": $".data ++ fmt2L p.2.cost)))⟩ : String) = "m: $0.01"
    rw [show (sortByKey [("m", (⟨0, 0, 0, 0, 3/250⟩ : ModelDetail))]).map
        (fun p => p.1.data ++ (": $".data ++ fmt2L p.2.cost)) =
        ["m".data ++ (": $".data ++ fmt2L (3/250))] from rfl]
    rw [fmt2L_of_rhe (3/250) 1 (by norm_num) (by norm_num [rhe])]
    decide
  exact ⟨hstr, hspec, by rw [hstr, hspec]; decide⟩

/-- C8 amended: the composed period `model_details` is built from the
days' structured mappings — for every model, token counts are summed per
model and costs are summed then rounded to 6 decimals, in first-appearance
order over the flattened day entries; the period's `model_breakdown`
string, however, is derived solely by re-parsing the days' rendered
strings (sorted by model name) and does not read the structured mapping. -/
theorem C8_model_merge (daily : List DaySummary) (s e : PyDate) :
    (∀ m : String,
      alGet (_compute_aggregate daily s e).model_details m =
        (if ((daily.map (fun d => d.model_details)).flatten.filter
            (fun p => p.1 == m)).isEmpty then none
         else some
          ⟨(((daily.map (fun d => d.model_details)).flatten.filter
              (fun p => p.1 == m)).map (fun p => p.2.input_tokens)).sum,
           (((daily.map (fun d => d.model_details)).flatten.filter
              (fun p => p.1 == m)).map (fun p => p.2.output_tokens)).sum,
           (((daily.map (fun d => d.model_details)).flatten.filter
              (fun p => p.1 == m)).map (fun p => p.2.cache_read_tokens)).sum,
           (((daily.map (fun d => d.model_details)).flatten.filter
              (fun p => p.1 == m)).map (fun p => p.2.cache_creation_tokens)).sum,
           roundDp 6 ((((daily.map (fun d => d.model_details)).flatten.filter
              (fun p => p.1 == m)).map (fun p => p.2.cost)).sum)⟩)) ∧
    (∀ daily' : List DaySummary,
      daily.map (fun d => d.model_breakdown) = daily'.map (fun d => d.model_breakdown) →
      (_compute_aggregate daily s e).model_breakdown =
        (_compute_aggregate daily' s e).model_breakdown) := by
  constructor
  · intro m
    show alGet (mergedDetails daily) m = _
    rw [mergedDetails, alGet_mapVals, mergedDetailsRaw_eq_flat, alGet_foldUpdate]
    simp only [alGet]
    cases hE : ((daily.map (fun d => d.model_details)).flatten.filter
        (fun p => p.1 == m)).isEmpty
    · simp only [Bool.false_eq_true, if_false, foldl_addDetails, Option.map_some']
      simp [roundDetail]
    · simp
  · intro daily' hmb
    show (⟨joinL ", ".data ((sortByKey (allModelCosts daily)).map
        (fun p => p.1.data ++ (": $".data ++ fmt2L p.2)))⟩ : String) = _
    have hc : allModelCosts daily = allModelCosts daily' := by
      unfold allModelCosts
      have h : ∀ (da db : List DaySummary) (acc : List (String × ℚ)),
          da.map (fun d => d.model_breakdown) = db.map (fun d => d.model_breakdown) →
          da.foldl (fun acc d =>
            if d.model_breakdown ≠ "" then
              (splitList ',' d.model_breakdown.data).foldl (fun acc rawPart =>
                let part := stripL rawPart
                match breakOnList ": $".data part with
                | some (ml, cl) =>
                  match pyParseFloat ⟨cl⟩ with
                  | some cost => alUpdate acc ⟨stripL ml⟩ (· + cost) 0
                  | none => acc
                | none => acc) acc
            else acc) acc =
          db.foldl (fun acc d =>
            if d.model_breakdown ≠ "" then
              (splitList ',' d.model_breakdown.data).foldl (fun acc rawPart =>
                let part := stripL rawPart
                match breakOnList ": $".data part with
                | some (ml, cl) =>
                  match pyParseFloat ⟨cl⟩ with
                  | some cost => alUpdate acc ⟨stripL ml⟩ (· + cost) 0
                  | none => acc
                | none => acc) acc
            else acc) acc := by
        intro da
        induction da with
        | nil =>
          intro db acc hdb
          cases db with
          | nil => rfl
          | cons d t => cases hdb
        | cons d t ih =>
          intro db acc hdb
          cases db with
          | nil => cases hdb
          | cons d' t' =>
            rw [List.map_cons, List.map_cons] at hdb
            injection hdb with h1 h2
            rw [List.foldl_cons, List.foldl_cons, h1, ih t' _ h2]
      exact h daily daily' [] hmb
    rw [hc]
    rfl

/-- Witness for C8's amended theorem: the merged entry for model `"m"`
over the two lossy days, and string-invariance under dropping the
structured details. -/
theorem C8_model_merge_witness :
    alGet (_compute_aggregate [lossyDayA, lossyDayB] ⟨2025, 6, 1⟩
        ⟨2025, 6, 2⟩).model_details "m" =
      (if (([lossyDayA, lossyDayB].map (fun d => d.model_details)).flatten.filter
          (fun p => p.1 == "m")).isEmpty then none
       else some
        ⟨((([lossyDayA, lossyDayB].map (fun d => d.model_details)).flatten.filter
            (fun p => p.1 == "m")).map (fun p => p.2.input_tokens)).sum,
         ((([lossyDayA, lossyDayB].map (fun d => d.model_details)).flatten.filter
            (fun p => p.1 == "m")).map (fun p => p.2.output_tokens)).sum,
         ((([lossyDayA, lossyDayB].map (fun d => d.model_details)).flatten.filter
            (fun p => p.1 == "m")).map (fun p => p.2.cache_read_tokens)).sum,
         ((([lossyDayA, lossyDayB].map (fun d => d.model_details)).flatten.filter
            (fun p => p.1 == "m")).map (fun p => p.2.cache_creation_tokens)).sum,
         roundDp 6 (((([lossyDayA, lossyDayB].map (fun d => d.model_details)).flatten.filter
            (fun p => p.1 == "m")).map (fun p => p.2.cost)).sum)⟩) ∧
    (_compute_aggregate [lossyDayA, lossyDayB] ⟨2025, 6, 1⟩ ⟨2025, 6, 2⟩).model_breakdown =
      (_compute_aggregate [strOnlyDayA, strOnlyDayB] ⟨2025, 6, 1⟩
        ⟨2025, 6, 2⟩).model_breakdown :=
  ⟨(C8_model_merge [lossyDayA, lossyDayB] ⟨2025, 6, 1⟩ ⟨2025, 6, 2⟩).1 "m",
   (C8_model_merge [lossyDayA, lossyDayB] ⟨2025, 6, 1⟩ ⟨2025, 6, 2⟩).2
     [strOnlyDayA, strOnlyDayB] rfl⟩

/-! ## Theorems: one-day range composition (claim C4) -/

/-- C4 counterexample: a day whose only tool call is named `"a,b"`.
The day's summary renders `Top Tools` as `"a,b"`, but composing the
one-day range re-parses the string at commas and renders `"a, b"`, so not
every field of the one-day aggregate equals the day summary's. -/
theorem C4_counterexample_comma_tool_name :
    (aggregate_range commaStore ⟨2025, 6, 1⟩ ⟨2025, 6, 1⟩).daily.map
      (fun s => s.top_tools) = ["a,b"] ∧
    (aggregate_range commaStore ⟨2025, 6, 1⟩ ⟨2025, 6, 1⟩).aggregate.map
      (fun a => a.top_tools) = some "a, b" ∧
    ("a,b" : String) ≠ "a, b" :=
  ⟨rfl, rfl, by decide⟩

/-! ### Split/join/strip round-trip lemmas -/

theorem splitList_exists_cons (c : Char) (l : List Char) :
    ∃ h t, splitList c l = h :: t := by
  induction l with
  | nil => exact ⟨[], [], rfl⟩
  | cons x xs ih =>
    obtain ⟨h, t, hht⟩ := ih
    by_cases hx : x = c
    · exact ⟨[], h :: t, by simp [splitList, hht, hx]⟩
    · exact ⟨x :: h, t, by simp [splitList, hht, hx]⟩

theorem splitList_no_sep (c : Char) (l : List Char) (h : c ∉ l) : splitList c l = [l] := by
  induction l with
  | nil => rfl
  | cons x xs ih =>
    rw [List.mem_cons] at h
    push_neg at h
    have hx : ¬ x = c := fun hh => h.1 hh.symm
    simp [splitList, ih h.2, hx]

theorem splitList_cons_ne (c x : Char) (l : List Char) (hx : x ≠ c) (h : List Char)
    (t : List (List Char)) (hs : splitList c l = h :: t) :
    splitList c (x :: l) = (x :: h) :: t := by
  simp [splitList, hs, hx]

theorem splitList_append_cons (c : Char) (a b : List Char) (ha : c ∉ a) :
    splitList c (a ++ c :: b) = a :: splitList c b := by
  induction a with
  | nil =>
    obtain ⟨h, t, hs⟩ := splitList_exists_cons c b
    simp [splitList, hs]
  | cons x xs ih =>
    have hx : x ≠ c := fun hh => ha (hh ▸ List.mem_cons_self x xs)
    have ha' : c ∉ xs := fun hh => ha (List.mem_cons_of_mem x hh)
    rw [List.cons_append]
    exact splitList_cons_ne c x _ hx xs (splitList c b) (ih ha')

theorem splitList_join :
    ∀ (names : List (List Char)) (x : List Char), ',' ∉ x → (∀ n ∈ names, ',' ∉ n) →
      splitList ',' (joinL ", ".data (x :: names)) = x :: names.map (fun n => ' ' :: n) := by
  intro names
  induction names with
  | nil =>
    intro x hc _
    simp [joinL, splitList_no_sep ',' x hc]
  | cons m rest ih =>
    intro x hc hcs
    have hrest := ih m (hcs m (List.mem_cons_self _ _))
      (fun n hn => hcs n (List.mem_cons_of_mem _ hn))
    have hsp : splitList ',' (' ' :: joinL ", ".data (m :: rest)) =
        (' ' :: m) :: rest.map (fun n => ' ' :: n) :=
      splitList_cons_ne ',' ' ' _ (by decide) m _ hrest
    calc splitList ',' (joinL ", ".data (x :: m :: rest))
        = splitList ',' (x ++ ',' :: (' ' :: joinL ", ".data (m :: rest))) := by
          show splitList ',' (x ++ ", ".data ++ joinL ", ".data (m :: rest)) = _
          congr 1
          simp
      _ = x :: splitList ',' (' ' :: joinL ", ".data (m :: rest)) :=
          splitList_append_cons ',' x _ hc
      _ = x :: (m :: rest).map (fun n => ' ' :: n) := by rw [hsp, List.map_cons]

theorem dropWhile_ws_eq_self (l : List Char)
    (h : ∀ x : Char, l.head? = some x → x.isWhitespace = false) :
    l.dropWhile Char.isWhitespace = l := by
  cases l with
  | nil => rfl
  | cons x t => rw [List.dropWhile_cons_of_neg (by simp [h x rfl])]

theorem stripL_eq_self_of_ends (l : List Char)
    (hh : ∀ x : Char, l.head? = some x → x.isWhitespace = false)
    (hl : ∀ x : Char, l.getLast? = some x → x.isWhitespace = false) :
    stripL l = l := by
  unfold stripL
  rw [dropWhile_ws_eq_self l hh,
    dropWhile_ws_eq_self l.reverse (fun x hx => hl x (by rwa [List.head?_reverse] at hx)),
    List.reverse_reverse]

theorem dropWhile_ws_of_stripL_eq (l : List Char) (h : stripL l = l) :
    l.dropWhile Char.isWhitespace = l := by
  have hsuf : l.dropWhile Char.isWhitespace <:+ l := List.dropWhile_suffix _
  have hlen : (stripL l).length ≤ (l.dropWhile Char.isWhitespace).length := by
    unfold stripL
    rw [List.length_reverse]
    calc ((l.dropWhile Char.isWhitespace).reverse.dropWhile Char.isWhitespace).length
        ≤ (l.dropWhile Char.isWhitespace).reverse.length := (List.dropWhile_suffix _).length_le
      _ = (l.dropWhile Char.isWhitespace).length := List.length_reverse _
  rw [h] at hlen
  exact hsuf.eq_of_length (le_antisymm hsuf.length_le hlen)

theorem dropWhile_ws_reverse_of_stripL_eq (l : List Char) (h : stripL l = l) :
    l.reverse.dropWhile Char.isWhitespace = l.reverse := by
  have h1 := dropWhile_ws_of_stripL_eq l h
  have h2 : stripL l = (l.reverse.dropWhile Char.isWhitespace).reverse := by
    unfold stripL
    rw [h1]
  rw [h] at h2
  rw [← List.reverse_reverse (l.reverse.dropWhile Char.isWhitespace), ← h2]

theorem stripL_space_cons (l : List Char) (h : stripL l = l) :
    stripL (' ' :: l) = l := by
  unfold stripL
  rw [List.dropWhile_cons_of_pos (by decide), dropWhile_ws_of_stripL_eq l h,
    dropWhile_ws_reverse_of_stripL_eq l h, List.reverse_reverse]

/-! ### First-occurrence split and dictionary-rebuild lemmas -/

theorem breakOnList_boundary (s0 : Char) (srest a b : List Char) (ha : s0 ∉ a) :
    breakOnList (s0 :: srest) (a ++ (s0 :: srest) ++ b) = some (a, b) := by
  induction a with
  | nil =>
    have hpre : (s0 :: srest).isPrefixOf ((s0 :: srest) ++ b) = true :=
      List.isPrefixOf_iff_prefix.mpr (List.prefix_append _ _)
    show breakOnList (s0 :: srest) ((s0 :: srest) ++ b) = some ([], b)
    cases hab : (s0 :: srest) ++ b with
    | nil => cases hab
    | cons ch t =>
      rw [show breakOnList (s0 :: srest) (ch :: t) =
          (if (s0 :: srest).isPrefixOf (ch :: t) then
            some ([], (ch :: t).drop (s0 :: srest).length)
           else
            match breakOnList (s0 :: srest) t with
            | some (x, y) => some (ch :: x, y)
            | none => none) from rfl]
      rw [← hab, if_pos hpre, List.drop_left]
  | cons x xs ih =>
    have hx : x ≠ s0 := fun hh => ha (hh ▸ List.mem_cons_self x xs)
    have ha' : s0 ∉ xs := fun hh => ha (List.mem_cons_of_mem x hh)
    have hnp : (s0 :: srest).isPrefixOf (x :: (xs ++ (s0 :: srest) ++ b)) = false := by
      show ((s0 == x) && _) = false
      simp [Ne.symm hx]
    show breakOnList (s0 :: srest) (x :: (xs ++ (s0 :: srest) ++ b)) = some (x :: xs, b)
    rw [show breakOnList (s0 :: srest) (x :: (xs ++ (s0 :: srest) ++ b)) =
        (if (s0 :: srest).isPrefixOf (x :: (xs ++ (s0 :: srest) ++ b)) then
          some ([], (x :: (xs ++ (s0 :: srest) ++ b)).drop (s0 :: srest).length)
         else
          match breakOnList (s0 :: srest) (xs ++ (s0 :: srest) ++ b) with
          | some (p, q) => some (x :: p, q)
          | none => none) from rfl]
    have hcond : ¬ ((s0 :: srest).isPrefixOf (x :: (xs ++ (s0 :: srest) ++ b)) = true) := by
      rw [hnp]
      exact Bool.false_ne_true
    rw [if_neg hcond, ih ha']

theorem foldl_congr_mem {α σ : Type} (l : List α) (f g : σ → α → σ) (init : σ)
    (h : ∀ s : σ, ∀ x ∈ l, f s x = g s x) : l.foldl f init = l.foldl g init := by
  induction l generalizing init with
  | nil => rfl
  | cons x t ih =>
    rw [List.foldl_cons, List.foldl_cons, h init x (List.mem_cons_self _ _)]
    exact ih _ (fun s y hy => h s y (List.mem_cons_of_mem _ hy))

theorem alUpdate_not_mem (l : List (String × β)) (k : String) (f : β → β) (d : β)
    (h : k ∉ l.map Prod.fst) : alUpdate l k f d = l ++ [(k, f d)] := by
  induction l with
  | nil => rfl
  | cons p t ih =>
    obtain ⟨k', v⟩ := p
    rw [List.map_cons, List.mem_cons] at h
    push_neg at h
    show (if k' = k then (k', f v) :: t else (k', v) :: alUpdate t k f d) = _
    rw [if_neg (fun hh => h.1 hh.symm), ih h.2, List.cons_append]

/-- Folding `alUpdate` over items with pairwise-distinct keys, disjoint
from the accumulator, simply appends one entry per item in order. -/
theorem foldUpdate_rebuild {ι : Type} (key : ι → String) (step : β → ι → β) (zero : β) :
    ∀ (items : List ι) (acc : List (String × β)),
      (items.map key).Nodup → (∀ it ∈ items, key it ∉ acc.map Prod.fst) →
      items.foldl (fun a it => alUpdate a (key it) (fun v => step v it) zero) acc =
        acc ++ items.map (fun it => (key it, step zero it)) := by
  intro items
  induction items with
  | nil =>
    intro acc _ _
    simp
  | cons it t ih =>
    intro acc hnd hdisj
    rw [List.map_cons, List.nodup_cons] at hnd
    rw [List.foldl_cons, alUpdate_not_mem _ _ _ _ (hdisj it (List.mem_cons_self _ _))]
    rw [ih (acc ++ [(key it, step zero it)]) hnd.2 ?_]
    · simp
    · intro x hx
      rw [List.map_append, List.mem_append]
      push_neg
      refine ⟨hdisj x (List.mem_cons_of_mem _ hx), ?_⟩
      simp only [List.map_cons, List.map_nil, List.mem_singleton]
      intro hk
      exact hnd.1 (hk ▸ List.mem_map.mpr ⟨x, hx, rfl⟩)

theorem foldUpdate_keys_subset {ι : Type} (key : ι → String) (step : β → ι → β) (zero : β) :
    ∀ (items : List ι) (acc : List (String × β)) (k : String),
      k ∈ (items.foldl (fun a it => alUpdate a (key it) (fun v => step v it) zero)
        acc).map Prod.fst →
      k ∈ acc.map Prod.fst ∨ k ∈ items.map key := by
  intro items
  induction items with
  | nil =>
    intro acc k h
    exact Or.inl h
  | cons it t ih =>
    intro acc k h
    rw [List.foldl_cons] at h
    rcases ih _ k h with h2 | h2
    · rw [alUpdate_keys] at h2
      split at h2
      · exact Or.inl h2
      · rcases List.mem_append.mp h2 with h3 | h3
        · exact Or.inl h3
        · right
          rw [List.mem_singleton] at h3
          simp [h3]
    · right
      exact List.mem_cons_of_mem _ h2

/-! ### Stable-sort lemmas for `most_common` and `sorted` -/

theorem insertCountDesc_perm (x : String × ℕ) (l : List (String × ℕ)) :
    List.Perm (insertCountDesc x l) (x :: l) := by
  induction l with
  | nil => exact List.Perm.refl _
  | cons y ys ih =>
    unfold insertCountDesc
    split
    · exact List.Perm.refl _
    · exact ((ih.cons y).trans (List.Perm.swap x y ys))

theorem mostCommon_perm (l : List (String × ℕ)) :
    List.Perm (l.foldr insertCountDesc []) l := by
  induction l with
  | nil => exact List.Perm.refl _
  | cons x t ih =>
    exact (insertCountDesc_perm x (t.foldr insertCountDesc [])).trans (ih.cons x)

theorem foldr_insertCountDesc_const (l : List (String × ℕ)) (k : ℕ)
    (h : ∀ p ∈ l, p.2 = k) : l.foldr insertCountDesc [] = l := by
  induction l with
  | nil => rfl
  | cons p t ih =>
    rw [List.foldr_cons, ih (fun q hq => h q (List.mem_cons_of_mem _ hq))]
    cases t with
    | nil => rfl
    | cons q r =>
      unfold insertCountDesc
      rw [if_pos]
      rw [h q (by simp), h p (by simp)]

theorem insertKeyAsc_perm (x : String × β) (l : List (String × β)) :
    List.Perm (insertKeyAsc x l) (x :: l) := by
  induction l with
  | nil => exact List.Perm.refl _
  | cons y ys ih =>
    unfold insertKeyAsc
    split
    · exact List.Perm.refl _
    · exact ((ih.cons y).trans (List.Perm.swap x y ys))

theorem sortByKey_perm (l : List (String × β)) : List.Perm (sortByKey l) l := by
  unfold sortByKey
  induction l with
  | nil => exact List.Perm.refl _
  | cons x t ih =>
    exact (insertKeyAsc_perm x (t.foldr insertKeyAsc [])).trans (ih.cons x)

theorem insertKeyAsc_pairwise (x : String × β) (l : List (String × β))
    (hl : l.Pairwise (fun a b => ¬ b.1 < a.1)) :
    (insertKeyAsc x l).Pairwise (fun a b => ¬ b.1 < a.1) := by
  induction l with
  | nil => simp [insertKeyAsc]
  | cons y ys ih =>
    rw [List.pairwise_cons] at hl
    unfold insertKeyAsc
    split
    · next hxy =>
      rw [List.pairwise_cons]
      refine ⟨?_, List.pairwise_cons.mpr hl⟩
      intro z hz
      rcases List.mem_cons.mp hz with h | h
      · subst h
        exact hxy
      · intro hzx
        exact hxy (lt_of_le_of_lt (not_lt.mp (hl.1 z h)) hzx)
    · next hxy =>
      have hyx : y.1 < x.1 := not_not.mp hxy
      rw [List.pairwise_cons]
      constructor
      · intro z hz
        rcases List.mem_cons.mp ((insertKeyAsc_perm x ys).mem_iff.mp hz) with h | h
        · subst h
          exact asymm hyx
        · exact hl.1 z h
      · exact ih hl.2

theorem sortByKey_pairwise (l : List (String × β)) :
    (sortByKey l).Pairwise (fun a b => ¬ b.1 < a.1) := by
  unfold sortByKey
  induction l with
  | nil => exact List.Pairwise.nil
  | cons x t ih => exact insertKeyAsc_pairwise x _ ih

theorem sortByKey_of_pairwise (l : List (String × β))
    (hl : l.Pairwise (fun a b => ¬ b.1 < a.1)) : sortByKey l = l := by
  induction l with
  | nil => rfl
  | cons x t ih =>
    rw [List.pairwise_cons] at hl
    show insertKeyAsc x (sortByKey t) = x :: t
    rw [ih hl.2]
    cases t with
    | nil => rfl
    | cons y r =>
      unfold insertKeyAsc
      rw [if_pos (hl.1 y (List.mem_cons_self _ _))]

theorem sortByKey_idem (l : List (String × β)) : sortByKey (sortByKey l) = sortByKey l :=
  sortByKey_of_pairwise _ (sortByKey_pairwise l)

/-! ### Decimal rendering and parsing round-trip -/

theorem digitsAux_zero (fuel : ℕ) : digitsAux fuel 0 = [] := by
  cases fuel <;> rfl

theorem digitsAux_lt_ten : ∀ fuel n : ℕ, ∀ d ∈ digitsAux fuel n, d < 10 := by
  intro fuel
  induction fuel with
  | zero =>
    intro n d hd
    cases n <;> simp [digitsAux] at hd
  | succ f ih =>
    intro n d hd
    cases n with
    | zero => simp [digitsAux] at hd
    | succ m =>
      rw [show digitsAux (f + 1) (m + 1) = (m + 1) % 10 :: digitsAux f ((m + 1) / 10)
        from rfl] at hd
      rcases List.mem_cons.mp hd with h | h
      · subst h
        exact Nat.mod_lt _ (by norm_num)
      · exact ih _ d h

theorem ofDigits_digitsAux : ∀ fuel n : ℕ, n ≤ fuel →
    Nat.ofDigits 10 (digitsAux fuel n) = n := by
  intro fuel
  induction fuel with
  | zero =>
    intro n hn
    have h0 : n = 0 := Nat.le_zero.mp hn
    subst h0
    rfl
  | succ f ih =>
    intro n hn
    cases n with
    | zero => rfl
    | succ m =>
      rw [show digitsAux (f + 1) (m + 1) = (m + 1) % 10 :: digitsAux f ((m + 1) / 10)
        from rfl]
      rw [Nat.ofDigits_cons, ih ((m + 1) / 10) (by
        have := Nat.div_lt_self (Nat.succ_pos m) (by norm_num : 1 < 10)
        omega)]
      omega

theorem digitsAux_small (fuel n : ℕ) (h1 : 0 < n) (h2 : n < 10) (hf : n ≤ fuel) :
    digitsAux fuel n = [n] := by
  cases fuel with
  | zero => omega
  | succ f =>
    cases n with
    | zero => omega
    | succ m =>
      rw [show digitsAux (f + 1) (m + 1) = (m + 1) % 10 :: digitsAux f ((m + 1) / 10)
        from rfl]
      rw [Nat.mod_eq_of_lt h2, Nat.div_eq_of_lt h2, digitsAux_zero]

theorem digitsAux_two (fuel n : ℕ) (h1 : 10 ≤ n) (h2 : n < 100) (hf : n ≤ fuel) :
    digitsAux fuel n = [n % 10, n / 10] := by
  cases fuel with
  | zero => omega
  | succ f =>
    cases n with
    | zero => omega
    | succ m =>
      rw [show digitsAux (f + 1) (m + 1) = (m + 1) % 10 :: digitsAux f ((m + 1) / 10)
        from rfl]
      rw [digitsAux_small f ((m + 1) / 10) (by omega) (by omega) (by omega)]

/-- The eight character-level facts about a decimal digit character. -/
theorem digitChar_facts (d : ℕ) (hd : d < 10) :
    (digitChar d).isDigit = true ∧ charVal (digitChar d) = d ∧ digitChar d ≠ ',' ∧
    digitChar d ≠ ':' ∧ digitChar d ≠ '.' ∧ (digitChar d).isWhitespace = false ∧
    digitChar d ≠ '-' ∧ digitChar d ≠ '+' := by
  interval_cases d <;> exact ⟨by decide, by decide, by decide, by decide, by decide,
    by decide, by decide, by decide⟩

theorem natRender_ne_nil (n : ℕ) : natRender n ≠ [] := by
  unfold natRender
  split
  · simp
  · next h =>
    intro hc
    rw [List.map_eq_nil_iff, List.reverse_eq_nil_iff] at hc
    exact h (by simpa [hc] using (ofDigits_digitsAux n n le_rfl).symm)

theorem natRender_chars (n : ℕ) : ∀ c ∈ natRender n,
    c.isDigit = true ∧ c ≠ ',' ∧ c ≠ ':' ∧ c ≠ '.' ∧ c.isWhitespace = false ∧
    c ≠ '-' ∧ c ≠ '+' := by
  intro c hc
  unfold natRender at hc
  split at hc
  · rw [List.mem_singleton] at hc
    subst hc
    exact ⟨by decide, by decide, by decide, by decide, by decide, by decide, by decide⟩
  · obtain ⟨d, hdm, rfl⟩ := List.mem_map.mp hc
    have hd : d < 10 := digitsAux_lt_ten n n d (List.mem_reverse.mp hdm)
    obtain ⟨h1, _, h3, h4, h5, h6, h7, h8⟩ := digitChar_facts d hd
    exact ⟨h1, h3, h4, h5, h6, h7, h8⟩

theorem pad2_chars (b : ℕ) : ∀ c ∈ pad2 b,
    c.isDigit = true ∧ c ≠ ',' ∧ c ≠ ':' ∧ c ≠ '.' ∧ c.isWhitespace = false ∧
    c ≠ '-' ∧ c ≠ '+' := by
  intro c hc
  unfold pad2 at hc
  rcases List.mem_append.mp hc with h | h
  · split at h
    · rw [List.mem_singleton] at h
      subst h
      exact ⟨by decide, by decide, by decide, by decide, by decide, by decide, by decide⟩
    · cases h
  · exact natRender_chars b c h

theorem natRender_value (n : ℕ) :
    Nat.ofDigits 10 ((natRender n).reverse.map charVal) = n := by
  unfold natRender
  split
  · next h =>
    subst h
    decide
  · simp only [List.map_reverse, List.reverse_reverse, List.map_map]
    have hmap : ∀ l : List ℕ, (∀ d ∈ l, d < 10) → l.map (charVal ∘ digitChar) = l := by
      intro l hl
      induction l with
      | nil => rfl
      | cons d t ih =>
        simp only [List.map_cons, Function.comp_apply]
        rw [(digitChar_facts d (hl d (List.mem_cons_self _ _))).2.1,
          ih (fun x hx => hl x (List.mem_cons_of_mem _ hx))]
    rw [hmap _ (digitsAux_lt_ten n n), ofDigits_digitsAux n n le_rfl]

theorem natRender_small (n : ℕ) (h : n < 10) : natRender n = [digitChar n] := by
  unfold natRender
  split
  · next h0 =>
    subst h0
    decide
  · next h0 =>
    rw [digitsAux_small n n (Nat.pos_of_ne_zero h0) h le_rfl]
    simp

theorem natRender_two (n : ℕ) (h1 : 10 ≤ n) (h2 : n < 100) :
    natRender n = [digitChar (n / 10), digitChar (n % 10)] := by
  unfold natRender
  rw [if_neg (by omega), digitsAux_two n n h1 h2 le_rfl]
  rfl

theorem pad2_value (b : ℕ) (hb : b < 100) :
    Nat.ofDigits 10 ((pad2 b).reverse.map charVal) = b ∧ (pad2 b).length = 2 := by
  unfold pad2
  by_cases h : b < 10
  · rw [if_pos h, natRender_small b h]
    constructor
    · rw [show ((['0'] : List Char) ++ [digitChar b]).reverse = [digitChar b, '0'] from
        by simp]
      rw [List.map_cons, List.map_cons, List.map_nil, (digitChar_facts b h).2.1,
        show charVal '0' = 0 from by decide]
      simp [Nat.ofDigits]
    · simp
  · rw [if_neg h, natRender_two b (by omega) hb]
    constructor
    · rw [show (([] : List Char) ++ [digitChar (b / 10), digitChar (b % 10)]).reverse =
        [digitChar (b % 10), digitChar (b / 10)] from by simp]
      rw [List.map_cons, List.map_cons, List.map_nil,
        (digitChar_facts (b % 10) (by omega)).2.1,
        (digitChar_facts (b / 10) (by omega)).2.1]
      simp [Nat.ofDigits]
      omega
    · simp

/-- Parsing the two-decimal rendering `<digits of a>.<2 digits of b>`
recovers `a + b/100` exactly. -/
theorem pyParseFloat_render (a b : ℕ) (hb : b < 100) :
    pyParseFloat ⟨natRender a ++ '.' :: pad2 b⟩ = some ((a : ℚ) + (b : ℚ) / 100) := by
  have hA := natRender_chars a
  have hB := pad2_chars b
  have hset : ∀ c ∈ natRender a ++ '.' :: pad2 b,
      c.isWhitespace = false ∧ c ≠ '-' ∧ c ≠ '+' := by
    intro c hc
    rcases List.mem_append.mp hc with h | h
    · exact ⟨(hA c h).2.2.2.2.1, (hA c h).2.2.2.2.2.1, (hA c h).2.2.2.2.2.2⟩
    · rcases List.mem_cons.mp h with h | h
      · subst h
        exact ⟨by decide, by decide, by decide⟩
      · exact ⟨(hB c h).2.2.2.2.1, (hB c h).2.2.2.2.2.1, (hB c h).2.2.2.2.2.2⟩
  have hstrip : stripL (natRender a ++ '.' :: pad2 b) = natRender a ++ '.' :: pad2 b := by
    apply stripL_eq_self_of_ends
    · intro x hx
      exact (hset x (List.mem_of_mem_head? hx)).1
    · intro x hx
      rw [← List.head?_reverse] at hx
      exact (hset x (List.mem_reverse.mp (List.mem_of_mem_head? hx))).1
  obtain ⟨c0, t0, hL⟩ : ∃ c0 t0, natRender a = c0 :: t0 := by
    cases hN : natRender a with
    | nil => exact absurd hN (natRender_ne_nil a)
    | cons c t => exact ⟨c, t, rfl⟩
  have hc0 : c0 ∈ natRender a ++ '.' :: pad2 b :=
    List.mem_append.mpr (Or.inl (by rw [hL]; exact List.mem_cons_self _ _))
  have hhead : (natRender a ++ '.' :: pad2 b).head? = some c0 := by
    rw [hL]
    rfl
  have hsign : ((natRender a ++ '.' :: pad2 b).head? == some '-') = false := by
    rw [hhead]
    simpa using (hset c0 hc0).2.1
  have hplus : ((natRender a ++ '.' :: pad2 b).head? == some '+') = false := by
    rw [hhead]
    simpa using (hset c0 hc0).2.2
  have hsplit : splitList '.' (natRender a ++ '.' :: pad2 b) =
      [natRender a, pad2 b] := by
    rw [splitList_append_cons '.' _ _ (fun hdot => (hA '.' hdot).2.2.2.1 rfl),
      splitList_no_sep '.' _ (fun hdot => (hB '.' hdot).2.2.2.1 rfl)]
  unfold pyParseFloat
  simp only [show (⟨natRender a ++ '.' :: pad2 b⟩ : String).data =
    natRender a ++ '.' :: pad2 b from rfl, hstrip]
  simp only [hsign, hplus, Bool.or_false, Bool.false_eq_true, if_false, hsplit]
  rw [if_pos ⟨List.all_eq_true.mpr (fun c hc => (hA c hc).1),
    List.all_eq_true.mpr (fun c hc => (hB c hc).1),
    Or.inl (natRender_ne_nil a)⟩]
  rw [natRender_value a, (pad2_value b hb).1, (pad2_value b hb).2]
  norm_num

/-- Parsing a `%.2f` rendering of a nonnegative rational recovers exactly
its rounded 2-decimal value. -/
theorem pyParseFloat_fmt2 (q : ℚ) (hq : 0 ≤ q) :
    pyParseFloat (fmt2 q) = some (((rhe (q * 100)).toNat : ℚ) / 100) := by
  have hn : rhe (q * 100) = (((rhe (q * 100)).toNat : ℕ) : ℤ) :=
    (Int.toNat_of_nonneg (rhe_nonneg (by positivity))).symm
  set n := (rhe (q * 100)).toNat with hdef
  have hfl : fmt2L q = natRender (n / 100) ++ ['.'] ++ pad2 (n % 100) :=
    fmt2L_of_rhe q n (not_lt.mpr hq) hn
  have hfmt : fmt2 q = ⟨natRender (n / 100) ++ '.' :: pad2 (n % 100)⟩ := by
    show (⟨fmt2L q⟩ : String) = _
    rw [hfl]
    simp
  rw [hfmt, pyParseFloat_render (n / 100) (n % 100) (Nat.mod_lt _ (by norm_num))]
  congr 1
  have hmod : (100 : ℚ) * ((n / 100 : ℕ) : ℚ) + ((n % 100 : ℕ) : ℚ) = (n : ℚ) := by
    exact_mod_cast congrArg (Nat.cast (R := ℚ)) (Nat.div_add_mod n 100)
  field_simp
  linarith [hmod]

/-- Rendering an exact 2-decimal value `n/100`. -/
theorem fmt2L_div100 (n : ℕ) :
    fmt2L ((n : ℚ) / 100) = natRender (n / 100) ++ ['.'] ++ pad2 (n % 100) := by
  apply fmt2L_of_rhe
  · exact not_lt.mpr (by positivity)
  · rw [div_mul_cancel₀ _ (by norm_num : (100 : ℚ) ≠ 0),
      show ((n : ℕ) : ℚ) = ((n : ℤ) : ℚ) from by push_cast; ring, rhe_intCast]

theorem head_not_ws_of_strip (l : List Char) (h : stripL l = l) :
    ∀ x : Char, l.head? = some x → x.isWhitespace = false := by
  intro x hx
  have hd := dropWhile_ws_of_stripL_eq l h
  cases l with
  | nil => cases hx
  | cons a t =>
    injection hx with hx
    subst hx
    by_contra hws
    rw [List.dropWhile_cons_of_pos (by simpa using hws)] at hd
    have := congrArg List.length hd
    have hle := (List.dropWhile_suffix (l := t) (p := Char.isWhitespace)).length_le
    simp at this
    omega

theorem pad2_ne_nil (b : ℕ) : pad2 b ≠ [] := by
  unfold pad2
  intro hc
  rcases List.append_eq_nil.mp hc with ⟨_, h2⟩
  exact natRender_ne_nil b h2

/-- Re-parsing and re-ranking a rendered top-tools string of at most 3
distinct clean names reproduces it exactly. -/
theorem parse_tools_roundtrip (names : List String)
    (hnd : names.Nodup) (hlen : names.length ≤ 3)
    (hclean : ∀ n ∈ names, cleanToolName n) (hne : names ≠ []) :
    joinL ", ".data ((mostCommon3 (
      ((splitList ',' (joinL ", ".data (names.map String.data))).map stripL).foldl
        (fun c t => if t ≠ [] then counterAdd c ⟨t⟩ else c) [])).map (fun p => p.1.data)) =
      joinL ", ".data (names.map String.data) := by
  cases names with
  | nil => exact absurd rfl hne
  | cons n0 rest =>
    have hsplit : splitList ',' (joinL ", ".data ((n0 :: rest).map String.data)) =
        n0.data :: (rest.map String.data).map (fun n => ' ' :: n) := by
      rw [List.map_cons]
      exact splitList_join (rest.map String.data) n0.data
        (hclean n0 (List.mem_cons_self _ _)).2.1
        (fun n hn => by
          obtain ⟨m, hm, rfl⟩ := List.mem_map.mp hn
          exact (hclean m (List.mem_cons_of_mem _ hm)).2.1)
    have hstripmap : ((n0.data :: (rest.map String.data).map (fun n => ' ' :: n)).map
        stripL) = (n0 :: rest).map String.data := by
      rw [List.map_cons, (hclean n0 (List.mem_cons_self _ _)).2.2, List.map_map,
        List.map_map, List.map_cons]
      congr 1
      apply List.map_congr_left
      intro m hm
      show stripL (' ' :: m.data) = m.data
      exact stripL_space_cons m.data (hclean m (List.mem_cons_of_mem _ hm)).2.2
    rw [hsplit, hstripmap]
    have hfold : ((n0 :: rest).map String.data).foldl
        (fun c t => if t ≠ [] then counterAdd c ⟨t⟩ else c) [] =
        ((n0 :: rest).map String.data).foldl (fun c t => counterAdd c ⟨t⟩) [] := by
      apply foldl_congr_mem
      intro s x hx
      obtain ⟨m, hm, rfl⟩ := List.mem_map.mp hx
      rw [if_pos (hclean m hm).1]
    have heta : ((n0 :: rest).map String.data).map (fun t => (⟨t⟩ : String)) = n0 :: rest := by
      rw [List.map_map]
      exact List.map_id'' (fun n => rfl) _
    have hrebuild : ((n0 :: rest).map String.data).foldl
        (fun c t => counterAdd c ⟨t⟩) [] =
        ((n0 :: rest).map String.data).map (fun t => ((⟨t⟩ : String), 0 + 1)) := by
      have h := foldUpdate_rebuild (fun t : List Char => (⟨t⟩ : String))
        (fun v (_ : List Char) => v + 1) 0 ((n0 :: rest).map String.data) []
        (by rw [heta]; exact hnd) (by simp)
      simpa [counterAdd] using h
    rw [hfold, hrebuild]
    have hconst : (((n0 :: rest).map String.data).map
        (fun t => ((⟨t⟩ : String), 0 + 1))).foldr insertCountDesc [] =
        ((n0 :: rest).map String.data).map (fun t => ((⟨t⟩ : String), 0 + 1)) :=
      foldr_insertCountDesc_const _ (0 + 1) (by
        intro p hp
        obtain ⟨t, _, rfl⟩ := List.mem_map.mp hp
        rfl)
    have hlen' : (((n0 :: rest).map String.data).map
        (fun t => ((⟨t⟩ : String), 0 + 1))).length ≤ 3 := by
      simpa using hlen
    unfold mostCommon3
    rw [hconst, List.take_of_length_le hlen', List.map_map]
    congr 1
    rw [List.map_map]
    exact List.map_congr_left (fun n _ => rfl)

theorem allModelCosts_foldl (daily : List DaySummary) :
    allModelCosts daily = daily.foldl (fun acc d =>
      if d.model_breakdown ≠ "" then
        (splitList ',' d.model_breakdown.data).foldl modelStep acc
      else acc) [] := rfl

theorem getLast?_append_ne_nil (a b : List Char) (hb : b ≠ []) :
    (a ++ b).getLast? = b.getLast? := by
  obtain ⟨x, t, hxt⟩ : ∃ x t, b.reverse = x :: t := by
    cases hbr : b.reverse with
    | nil => exact absurd (by simpa using hbr) hb
    | cons x t => exact ⟨x, t, rfl⟩
  rw [← List.head?_reverse, ← List.head?_reverse, List.reverse_append, hxt]
  rfl

theorem mem_of_getLast?_eq (l : List Char) (x : Char) (h : l.getLast? = some x) :
    x ∈ l := by
  rw [← List.head?_reverse] at h
  exact List.mem_reverse.mp (List.mem_of_mem_head? h)

theorem fmt2L_ne_nil (c : ℚ) (hc : 0 ≤ c) : fmt2L c ≠ [] := by
  have hn : rhe (c * 100) = (((rhe (c * 100)).toNat : ℕ) : ℤ) :=
    (Int.toNat_of_nonneg (rhe_nonneg (by positivity))).symm
  rw [fmt2L_of_rhe c _ (not_lt.mpr hc) hn]
  intro hcon
  rcases List.append_eq_nil.mp hcon with ⟨_, h2⟩
  exact pad2_ne_nil _ h2

/-- Every character of a nonnegative `%.2f` rendering is a digit or the
point: never a comma, never whitespace. -/
theorem fmt2L_chars (c : ℚ) (hc : 0 ≤ c) :
    ∀ ch ∈ fmt2L c, ch ≠ ',' ∧ ch.isWhitespace = false := by
  intro ch hch
  have hn : rhe (c * 100) = (((rhe (c * 100)).toNat : ℕ) : ℤ) :=
    (Int.toNat_of_nonneg (rhe_nonneg (by positivity))).symm
  rw [fmt2L_of_rhe c _ (not_lt.mpr hc) hn] at hch
  rcases List.mem_append.mp hch with h | h
  · rcases List.mem_append.mp h with h2 | h2
    · exact ⟨(natRender_chars _ ch h2).2.1, (natRender_chars _ ch h2).2.2.2.2.1⟩
    · rw [List.mem_singleton] at h2
      subst h2
      exact ⟨by decide, by decide⟩
  · exact ⟨(pad2_chars _ ch h).2.1, (pad2_chars _ ch h).2.2.2.2.1⟩

theorem model_part_no_comma (m : String) (c : ℚ) (hm : cleanModelName m) (hc : 0 ≤ c) :
    ',' ∉ m.data ++ (": $".data ++ fmt2L c) := by
  intro h
  rcases List.mem_append.mp h with h | h
  · exact hm.1 h
  · rcases List.mem_append.mp h with h | h
    · exact absurd h (by decide)
    · exact (fmt2L_chars c hc ',' h).1 rfl

/-- A rendered model-breakdown piece is invariant under `strip()`. -/
theorem model_part_strip (m : String) (c : ℚ) (hm : cleanModelName m) (hc : 0 ≤ c) :
    stripL (m.data ++ (": $".data ++ fmt2L c)) = m.data ++ (": $".data ++ fmt2L c) := by
  apply stripL_eq_self_of_ends
  · intro x hx
    cases hmd : m.data with
    | nil =>
      rw [hmd, List.nil_append] at hx
      have h13 : (": $".data ++ fmt2L c).head? = some ':' := rfl
      rw [h13] at hx
      injection hx with hx
      subst hx
      decide
    | cons c0 t0 =>
      rw [hmd, List.cons_append, List.head?_cons] at hx
      injection hx with hx
      subst hx
      exact head_not_ws_of_strip m.data hm.2.2 c0 (by rw [hmd]; rfl)
  · intro x hx
    have hb : ": $".data ++ fmt2L c ≠ [] := by
      intro hcon
      rcases List.append_eq_nil.mp hcon with ⟨h1, _⟩
      exact (by decide : ": $".data ≠ []) h1
    rw [getLast?_append_ne_nil m.data _ hb,
      getLast?_append_ne_nil ": $".data _ (fmt2L_ne_nil c hc)] at hx
    exact (fmt2L_chars c hc x (mem_of_getLast?_eq _ x hx)).2

/-- `modelStep` on a clean rendered piece records the re-parsed 2-decimal
cost under the model name. -/
theorem modelStep_clean (m : String) (c : ℚ) (hm : cleanModelName m) (hc : 0 ≤ c)
    (acc : List (String × ℚ)) :
    modelStep acc (m.data ++ (": $".data ++ fmt2L c)) =
      alUpdate acc m (fun v => v + ((rhe (c * 100)).toNat : ℚ) / 100) 0 := by
  unfold modelStep
  rw [model_part_strip m c hm hc]
  have hbreak : breakOnList ": $".data (m.data ++ (": $".data ++ fmt2L c)) =
      some (m.data, fmt2L c) := by
    have h := breakOnList_boundary ':' [' ', '$'] m.data (fmt2L c) hm.2.1
    rw [List.append_assoc] at h
    exact h
  rw [hbreak]
  have hp : pyParseFloat ⟨fmt2L c⟩ = some (((rhe (c * 100)).toNat : ℚ) / 100) :=
    pyParseFloat_fmt2 c hc
  show (match pyParseFloat ⟨fmt2L c⟩ with
    | some cost => alUpdate acc ⟨stripL m.data⟩ (fun v => v + cost) 0
    | none => acc) = _
  rw [hp]
  show alUpdate acc ⟨stripL m.data⟩ (fun v => v + ((rhe (c * 100)).toNat : ℚ) / 100) 0 = _
  rw [hm.2.2]

theorem modelStep_space (acc : List (String × ℚ)) (part : List Char)
    (h : stripL part = part) : modelStep acc (' ' :: part) = modelStep acc part := by
  unfold modelStep
  rw [stripL_space_cons part h, h]

theorem modelStep_clean_sp (m : String) (c : ℚ) (hm : cleanModelName m) (hc : 0 ≤ c)
    (acc : List (String × ℚ)) :
    modelStep acc (' ' :: (m.data ++ (": $".data ++ fmt2L c))) =
      alUpdate acc m (fun v => v + ((rhe (c * 100)).toNat : ℚ) / 100) 0 := by
  rw [modelStep_space acc _ (model_part_strip m c hm hc)]
  exact modelStep_clean m c hm hc acc

/-- Folding `modelStep` over the space-prefixed tail pieces performs one
`alUpdate` per model. -/
theorem foldl_modelStep (ml : List (String × ℚ)) :
    ∀ acc : List (String × ℚ),
    (∀ p ∈ ml, cleanModelName p.1) → (∀ p ∈ ml, 0 ≤ p.2) →
    ((ml.map (fun p => p.1.data ++ (": $".data ++ fmt2L p.2))).map
        (fun l => ' ' :: l)).foldl modelStep acc =
      ml.foldl (fun acc p => alUpdate acc p.1
        (fun v => v + ((rhe (p.2 * 100)).toNat : ℚ) / 100) 0) acc := by
  induction ml with
  | nil =>
    intro acc _ _
    rfl
  | cons p t ih =>
    intro acc hclean hpos
    rw [List.map_cons, List.map_cons, List.foldl_cons, List.foldl_cons,
      modelStep_clean_sp p.1 p.2 (hclean p (List.mem_cons_self _ _))
        (hpos p (List.mem_cons_self _ _)) acc]
    exact ih _ (fun q hq => hclean q (List.mem_cons_of_mem _ hq))
      (fun q hq => hpos q (List.mem_cons_of_mem _ hq))

/-- Re-parsing a rendered model-breakdown string of clean, key-distinct
entries yields exactly one entry per model, holding the re-parsed
2-decimal cost. -/
theorem parse_models_roundtrip (ms : List (String × ℚ))
    (hnd : (ms.map Prod.fst).Nodup)
    (hclean : ∀ p ∈ ms, cleanModelName p.1)
    (hpos : ∀ p ∈ ms, 0 ≤ p.2)
    (hne : ms ≠ []) :
    (splitList ',' (joinL ", ".data (ms.map (fun p =>
        p.1.data ++ (": $".data ++ fmt2L p.2))))).foldl modelStep [] =
      ms.map (fun p => (p.1, 0 + ((rhe (p.2 * 100)).toNat : ℚ) / 100)) := by
  cases ms with
  | nil => exact absurd rfl hne
  | cons p0 rest =>
    have hsplit : splitList ','
        (joinL ", ".data ((p0 :: rest).map (fun p => p.1.data ++ (": $".data ++ fmt2L p.2)))) =
        (p0.1.data ++ (": $".data ++ fmt2L p0.2)) ::
          ((rest.map (fun p => p.1.data ++ (": $".data ++ fmt2L p.2))).map
            (fun l => ' ' :: l)) := by
      rw [List.map_cons]
      refine splitList_join _ _ ?_ ?_
      · exact model_part_no_comma p0.1 p0.2 (hclean p0 (List.mem_cons_self _ _))
          (hpos p0 (List.mem_cons_self _ _))
      · intro n hn
        obtain ⟨p, hp, rfl⟩ := List.mem_map.mp hn
        exact model_part_no_comma p.1 p.2 (hclean p (List.mem_cons_of_mem _ hp))
          (hpos p (List.mem_cons_of_mem _ hp))
    rw [hsplit, List.foldl_cons]
    rw [modelStep_clean p0.1 p0.2 (hclean p0 (List.mem_cons_self _ _))
      (hpos p0 (List.mem_cons_self _ _)) []]
    rw [foldl_modelStep rest _
      (fun q hq => hclean q (List.mem_cons_of_mem _ hq))
      (fun q hq => hpos q (List.mem_cons_of_mem _ hq))]
    rw [show alUpdate [] p0.1
      (fun v => v + ((rhe (p0.2 * 100)).toNat : ℚ) / 100) 0 =
      [(p0.1, 0 + ((rhe (p0.2 * 100)).toNat : ℚ) / 100)] from rfl]
    rw [List.map_cons, List.nodup_cons] at hnd
    have hreb := foldUpdate_rebuild (Prod.fst : String × ℚ → String)
      (fun v p => v + ((rhe (p.2 * 100)).toNat : ℚ) / 100) 0 rest
      [(p0.1, 0 + ((rhe (p0.2 * 100)).toNat : ℚ) / 100)] hnd.2
      (by
        intro p hp
        simp only [List.map_cons, List.map_nil, List.mem_singleton]
        intro hk
        exact hnd.1 (hk ▸ List.mem_map.mpr ⟨p, hp, rfl⟩))
    rw [hreb, List.singleton_append, List.map_cons]

/-- Re-rendering the re-parsed cost list of an already-sorted clean
breakdown reproduces the original rendered pieces. -/
theorem render_models_roundtrip (ms : List (String × ℚ))
    (hsorted : ms.Pairwise (fun a b => ¬ b.1 < a.1))
    (hpos : ∀ p ∈ ms, 0 ≤ p.2) :
    (sortByKey (ms.map (fun p => (p.1, 0 + ((rhe (p.2 * 100)).toNat : ℚ) / 100)))).map
        (fun p => p.1.data ++ (": $".data ++ fmt2L p.2)) =
      ms.map (fun p => p.1.data ++ (": $".data ++ fmt2L p.2)) := by
  rw [sortByKey_of_pairwise _
    (List.Pairwise.map _ (fun a b (h : ¬ b.1 < a.1) => h) hsorted)]
  rw [List.map_map]
  apply List.map_congr_left
  intro p hp
  show p.1.data ++ (": $".data ++ fmt2L (0 + ((rhe (p.2 * 100)).toNat : ℚ) / 100)) =
    p.1.data ++ (": $".data ++ fmt2L p.2)
  have hn : rhe (p.2 * 100) = (((rhe (p.2 * 100)).toNat : ℕ) : ℤ) :=
    (Int.toNat_of_nonneg (rhe_nonneg (mul_nonneg (hpos p hp) (by norm_num)))).symm
  rw [zero_add, fmt2L_div100, fmt2L_of_rhe p.2 _ (not_lt.mpr (hpos p hp)) hn]

/-! ### Single-day composition helpers (claim C4) -/

theorem roundDp_nonneg (n : ℕ) (x : ℚ) (hx : 0 ≤ x) : 0 ≤ roundDp n x := by
  unfold roundDp
  apply div_nonneg
  · exact_mod_cast rhe_nonneg (by positivity)
  · positivity

theorem alUpdate_ne_nil (l : List (String × β)) (k : String) (f : β → β) (d : β) :
    alUpdate l k f d ≠ [] := by
  cases l with
  | nil => simp [alUpdate]
  | cons p t =>
    obtain ⟨k', v⟩ := p
    show (if k' = k then (k', f v) :: t else (k', v) :: alUpdate t k f d) ≠ []
    split <;> simp

theorem counterAdd_ne_nil (c : List (String × ℕ)) (k : String) : counterAdd c k ≠ [] :=
  alUpdate_ne_nil c k (· + 1) 0

theorem foldl_ne_nil {ι σ : Type} (f : List σ → ι → List σ)
    (hf : ∀ a x, a ≠ [] → f a x ≠ []) :
    ∀ (items : List ι) (acc : List σ), acc ≠ [] → items.foldl f acc ≠ [] := by
  intro items
  induction items with
  | nil =>
    intro acc h
    exact h
  | cons x t ih =>
    intro acc h
    exact ih _ (hf acc x h)

theorem toolCounter_ne_nil (tevents : List Record) (h : tevents ≠ []) :
    toolCounter tevents ≠ [] := by
  cases tevents with
  | nil => exact absurd rfl h
  | cons r t =>
    show (r :: t).foldl (fun c r => counterAdd c (toolName r)) [] ≠ []
    rw [List.foldl_cons]
    exact foldl_ne_nil _ (fun a x ha => counterAdd_ne_nil a (toolName x)) t _
      (counterAdd_ne_nil [] (toolName r))

theorem dateList_self (d : PyDate) : dateList d d = [d] := by
  unfold dateList rangeDays
  rw [Nat.add_sub_cancel_left, show List.range 1 = [0] from rfl]
  simp

theorem joinL_ne_nil (sep : List Char) (x : List Char) (xs : List (List Char))
    (hx : x ≠ []) : joinL sep (x :: xs) ≠ [] := by
  cases xs with
  | nil => exact hx
  | cons y ys =>
    show x ++ sep ++ joinL sep (y :: ys) ≠ []
    intro h
    rcases List.append_eq_nil.mp h with ⟨h1, _⟩
    rcases List.append_eq_nil.mp h1 with ⟨h2, _⟩
    exact hx h2

theorem mk_ne_empty (l : List Char) (h : l ≠ []) : (⟨l⟩ : String) ≠ "" := by
  intro hc
  exact h (congrArg String.data hc)

theorem addDetails_empty (v : ModelDetail) : addDetails {} v = v := by
  obtain ⟨a, b, c, d, e⟩ := v
  simp [addDetails, pyInt_intCast]

theorem roundDetail_idem (v : ModelDetail) :
    roundDetail (roundDetail v) = roundDetail v := by
  simp [roundDetail, roundDp_idem]

/-- The structured merge of a single day is that day's `model_details`
unchanged (token `int` round-trips are identities and the costs are
already 6-decimal values). -/
theorem mergedDetails_single (s : DaySummary)
    (hnd : (s.model_details.map Prod.fst).Nodup)
    (hround : ∀ p ∈ s.model_details, roundDetail p.2 = p.2) :
    mergedDetails [s] = s.model_details := by
  unfold mergedDetails
  rw [mergedDetailsRaw_eq_flat,
    show ([s].map (fun d => d.model_details)).flatten = s.model_details from by simp]
  rw [foldUpdate_rebuild (Prod.fst : String × ModelDetail → String)
    (fun md p => addDetails md p.2) {} s.model_details [] hnd (by simp),
    List.nil_append]
  unfold mapVals
  rw [List.map_map]
  have h : ∀ p ∈ s.model_details,
      ((fun p => (p.1, roundDetail p.2)) ∘
        (fun p : String × ModelDetail => (p.1, addDetails {} p.2))) p = p := by
    intro p hp
    show (p.1, roundDetail (addDetails {} p.2)) = p
    rw [addDetails_empty, hround p hp]
  exact (List.map_congr_left h).trans (List.map_id'' (fun x => rfl) _)

theorem _avg_attr_of_no_events (records : List Record) (e k : String)
    (h : _event_records records e = []) : _avg_attr records e k = 0 := by
  unfold _avg_attr
  rw [h]
  rfl

theorem toolCounter_keys_nodup (tevents : List Record) :
    ((toolCounter tevents).map Prod.fst).Nodup :=
  foldUpdate_keys_nodup toolName (fun v _ => v + 1) 0 tevents [] (by simp)

theorem toolCounter_keys_sub (tevents : List Record) :
    ∀ k ∈ (toolCounter tevents).map Prod.fst, ∃ r ∈ tevents, toolName r = k := by
  intro k hk
  rcases foldUpdate_keys_subset toolName (fun v (_ : Record) => v + 1) 0 tevents [] k hk
    with h | h
  · simp at h
  · obtain ⟨r, hr, rfl⟩ := List.mem_map.mp h
    exact ⟨r, hr, rfl⟩

theorem mostCommon3_sub (c : List (String × ℕ)) : ∀ p ∈ mostCommon3 c, p ∈ c := by
  intro p hp
  unfold mostCommon3 at hp
  exact (mostCommon_perm c).mem_iff.mp (List.mem_of_mem_take hp)

theorem mostCommon3_keys_nodup (c : List (String × ℕ))
    (hnd : (c.map Prod.fst).Nodup) : ((mostCommon3 c).map Prod.fst).Nodup := by
  unfold mostCommon3
  rw [List.map_take]
  exact List.Nodup.sublist (List.take_sublist 3 _)
    (((mostCommon_perm c).map Prod.fst).nodup_iff.mpr hnd)

theorem mostCommon3_len (c : List (String × ℕ)) :
    ((mostCommon3 c).map Prod.fst).length ≤ 3 := by
  rw [List.length_map]
  unfold mostCommon3
  rw [List.length_take]
  exact min_le_left _ _

theorem mostCommon3_ne_nil (c : List (String × ℕ)) (h : c ≠ []) :
    mostCommon3 c ≠ [] := by
  unfold mostCommon3
  rw [Ne, List.take_eq_nil_iff]
  push_neg
  refine ⟨by norm_num, ?_⟩
  intro h1
  exact h (List.Perm.eq_nil ((h1 ▸ mostCommon_perm c).symm))

theorem model_details_keys_nodup (records : List Record) :
    ((model_details records).map Prod.fst).Nodup := by
  have h := modelDetailsRaw_nodup records
  unfold model_details mapVals
  rw [List.map_map]
  exact h

theorem model_details_keys_models (records : List Record) :
    ∀ k ∈ (model_details records).map Prod.fst,
      ∃ r ∈ _event_records records "api_request", recModel r = k := by
  intro k hk
  unfold model_details mapVals at hk
  rw [List.map_map] at hk
  have hk' : k ∈ (modelDetailsRaw records).map Prod.fst := hk
  rcases foldUpdate_keys_subset recModel (fun v r => addModelRec v r) ({} : ModelDetail)
    (_event_records records "api_request") [] k hk' with h | h
  · simp at h
  · obtain ⟨r, hr, rfl⟩ := List.mem_map.mp h
    exact ⟨r, hr, rfl⟩

theorem model_details_cost_nonneg (records : List Record)
    (hcost : ∀ r ∈ _event_records records "api_request", 0 ≤ recCost r) :
    ∀ p ∈ model_details records, 0 ≤ p.2.cost := by
  intro p hp
  unfold model_details mapVals at hp
  obtain ⟨q, hq, rfl⟩ := List.mem_map.mp hp
  show 0 ≤ roundDp 6 q.2.cost
  apply roundDp_nonneg
  obtain ⟨k, v⟩ := q
  have hv := modelDetailsRaw_mem hq
  show (0 : ℚ) ≤ v.cost
  rw [hv, foldl_addModelRec]
  show (0 : ℚ) ≤ 0 + (((_event_records records "api_request").filter
    (fun r => recModel r == k)).map recCost).sum
  rw [zero_add]
  apply List.sum_nonneg
  intro x hx
  obtain ⟨r, hr, rfl⟩ := List.mem_map.mp hx
  exact hcost r (List.mem_of_mem_filter hr)

theorem model_details_round_fixed (records : List Record) :
    ∀ p ∈ model_details records, roundDetail p.2 = p.2 := by
  intro p hp
  unfold model_details mapVals at hp
  obtain ⟨q, _, rfl⟩ := List.mem_map.mp hp
  show roundDetail (roundDetail q.2) = roundDetail q.2
  exact roundDetail_idem q.2

/-- All 14 integer fields of a one-day composition are the day's values:
`int(float(z)) = z`. -/
theorem compute_single_ints (s : DaySummary) (a b : PyDate) :
    (_compute_aggregate [s] a b).sessions = s.sessions ∧
    (_compute_aggregate [s] a b).user_prompts = s.user_prompts ∧
    (_compute_aggregate [s] a b).api_calls = s.api_calls ∧
    (_compute_aggregate [s] a b).input_tokens = s.input_tokens ∧
    (_compute_aggregate [s] a b).output_tokens = s.output_tokens ∧
    (_compute_aggregate [s] a b).cache_read_tokens = s.cache_read_tokens ∧
    (_compute_aggregate [s] a b).cache_creation_tokens = s.cache_creation_tokens ∧
    (_compute_aggregate [s] a b).total_tokens = s.total_tokens ∧
    (_compute_aggregate [s] a b).lines_added = s.lines_added ∧
    (_compute_aggregate [s] a b).lines_removed = s.lines_removed ∧
    (_compute_aggregate [s] a b).commits = s.commits ∧
    (_compute_aggregate [s] a b).pull_requests = s.pull_requests ∧
    (_compute_aggregate [s] a b).tool_calls = s.tool_calls ∧
    (_compute_aggregate [s] a b).api_errors = s.api_errors := by
  refine ⟨?_, ?_, ?_, ?_, ?_, ?_, ?_, ?_, ?_, ?_, ?_, ?_, ?_, ?_⟩ <;>
    simp [_compute_aggregate, pyInt_intCast]

theorem compute_single_rounded (s : DaySummary) (a b : PyDate)
    (h2 : roundDp 2 s.active_time = s.active_time)
    (h4 : roundDp 4 s.total_cost = s.total_cost) :
    (_compute_aggregate [s] a b).active_time = s.active_time ∧
    (_compute_aggregate [s] a b).total_cost = s.total_cost := by
  constructor
  · show roundDp 2 (([s].map (fun d => d.active_time)).sum) = s.active_time
    simpa using h2
  · show roundDp 4 (([s].map (fun d => d.total_cost)).sum) = s.total_cost
    simpa using h4

theorem compute_single_rate (s : DaySummary) (a b : PyDate)
    (hc : 0 ≤ s.tool_calls)
    (hidem : roundDp 1 s.tool_success_rate = s.tool_success_rate)
    (hzero : s.tool_calls = 0 → s.tool_success_rate = 0) :
    (_compute_aggregate [s] a b).tool_success_rate = s.tool_success_rate := by
  show roundDp 1 (if ([s].map (fun d => (d.tool_calls : ℚ))).sum > 0 then
      ([s].map (fun d => d.tool_success_rate * (d.tool_calls : ℚ))).sum /
        ([s].map (fun d => (d.tool_calls : ℚ))).sum
    else 0) = s.tool_success_rate
  have hsum : ([s].map (fun d => (d.tool_calls : ℚ))).sum = (s.tool_calls : ℚ) := by simp
  have hw : ([s].map (fun d => d.tool_success_rate * (d.tool_calls : ℚ))).sum =
      s.tool_success_rate * (s.tool_calls : ℚ) := by simp
  rw [hsum, hw]
  by_cases h0 : s.tool_calls = 0
  · rw [h0, if_neg (by norm_num), roundDp_zero]
    exact (hzero h0).symm
  · have hpos : (0 : ℚ) < (s.tool_calls : ℚ) := by
      exact_mod_cast lt_of_le_of_ne hc (Ne.symm h0)
    rw [if_pos hpos, mul_div_cancel_right₀ _ (ne_of_gt hpos), hidem]

theorem compute_single_duration (s : DaySummary) (a b : PyDate)
    (hc : 0 ≤ s.api_calls)
    (hidem : roundDp 1 s.avg_api_duration = s.avg_api_duration)
    (hzero : s.api_calls = 0 → s.avg_api_duration = 0) :
    (_compute_aggregate [s] a b).avg_api_duration = s.avg_api_duration := by
  show roundDp 1 (if ([s].map (fun d => (d.api_calls : ℚ))).sum > 0 then
      ([s].map (fun d => d.avg_api_duration * (d.api_calls : ℚ))).sum /
        ([s].map (fun d => (d.api_calls : ℚ))).sum
    else 0) = s.avg_api_duration
  have hsum : ([s].map (fun d => (d.api_calls : ℚ))).sum = (s.api_calls : ℚ) := by simp
  have hw : ([s].map (fun d => d.avg_api_duration * (d.api_calls : ℚ))).sum =
      s.avg_api_duration * (s.api_calls : ℚ) := by simp
  rw [hsum, hw]
  by_cases h0 : s.api_calls = 0
  · rw [h0, if_neg (by norm_num), roundDp_zero]
    exact (hzero h0).symm
  · have hpos : (0 : ℚ) < (s.api_calls : ℚ) := by
      exact_mod_cast lt_of_le_of_ne hc (Ne.symm h0)
    rw [if_pos hpos, mul_div_cancel_right₀ _ (ne_of_gt hpos), hidem]

/-- One-day composition of the `Top Tools` string: the re-parsed,
re-tallied, re-ranked and re-joined string is the day's string whenever
that string renders ≤ 3 distinct clean names (or no tools at all). -/
theorem compute_single_top_tools (s : DaySummary) (a b : PyDate)
    (names : List String)
    (htop : s.top_tools = ⟨joinL ", ".data (names.map String.data)⟩)
    (hnd : names.Nodup) (hlen : names.length ≤ 3)
    (hclean : ∀ n ∈ names, cleanToolName n) :
    (_compute_aggregate [s] a b).top_tools = s.top_tools := by
  have hALT : allToolsCounter [s] =
      (if s.top_tools ≠ "" then
        ((splitList ',' s.top_tools.data).map stripL).foldl
          (fun c t => if t ≠ [] then counterAdd c ⟨t⟩ else c) []
      else []) := rfl
  show (⟨joinL ", ".data ((mostCommon3 (allToolsCounter [s])).map
    (fun p => p.1.data))⟩ : String) = s.top_tools
  cases names with
  | nil =>
    have h0 : s.top_tools = "" := by
      rw [htop]
      rfl
    rw [hALT, h0, if_neg (fun h => h rfl)]
    rfl
  | cons n0 rest =>
    have hne2 : s.top_tools ≠ "" := by
      rw [htop]
      apply mk_ne_empty
      rw [List.map_cons]
      exact joinL_ne_nil _ _ _ (hclean n0 (List.mem_cons_self _ _)).1
    rw [hALT, if_pos hne2]
    have hdata : s.top_tools.data = joinL ", ".data ((n0 :: rest).map String.data) := by
      rw [htop]
    rw [hdata, htop]
    exact congrArg String.mk (parse_tools_roundtrip (n0 :: rest) hnd hlen hclean (by simp))

/-- One-day composition of the `Model Breakdown` string: re-parsing and
re-rendering the day's string reproduces it whenever the names are clean
and the costs nonnegative (or there are no models at all). -/
theorem compute_single_breakdown (s : DaySummary) (a b : PyDate)
    (ms : List (String × ℚ))
    (hbd : s.model_breakdown =
      ⟨joinL ", ".data (ms.map (fun p => p.1.data ++ (": $".data ++ fmt2L p.2)))⟩)
    (hnd : (ms.map Prod.fst).Nodup)
    (hsorted : ms.Pairwise (fun a b => ¬ b.1 < a.1))
    (hclean : ∀ p ∈ ms, cleanModelName p.1)
    (hpos : ∀ p ∈ ms, 0 ≤ p.2) :
    (_compute_aggregate [s] a b).model_breakdown = s.model_breakdown := by
  have hAMC : allModelCosts [s] =
      (if s.model_breakdown ≠ "" then
        (splitList ',' s.model_breakdown.data).foldl modelStep []
      else []) := rfl
  show (⟨joinL ", ".data ((sortByKey (allModelCosts [s])).map
    (fun p => p.1.data ++ (": $".data ++ fmt2L p.2)))⟩ : String) = s.model_breakdown
  cases ms with
  | nil =>
    have h0 : s.model_breakdown = "" := by
      rw [hbd]
      rfl
    rw [hAMC, h0, if_neg (fun h => h rfl)]
    rfl
  | cons p0 rest =>
    have hne2 : s.model_breakdown ≠ "" := by
      rw [hbd]
      apply mk_ne_empty
      rw [List.map_cons]
      apply joinL_ne_nil
      intro hcon
      rcases List.append_eq_nil.mp hcon with ⟨_, h2⟩
      rcases List.append_eq_nil.mp h2 with ⟨h3, _⟩
      exact (by decide : ": $".data ≠ []) h3
    rw [hAMC, if_pos hne2]
    have hdata : s.model_breakdown.data =
        joinL ", ".data ((p0 :: rest).map
          (fun p => p.1.data ++ (": $".data ++ fmt2L p.2))) := by
      rw [hbd]
    rw [hdata, parse_models_roundtrip (p0 :: rest) hnd hclean hpos (by simp), hbd]
    exact congrArg (fun l => (⟨joinL ", ".data l⟩ : String))
      (render_models_roundtrip (p0 :: rest) hsorted hpos)

theorem compute_single_details (s : DaySummary) (a b : PyDate)
    (hnd : (s.model_details.map Prod.fst).Nodup)
    (hround : ∀ p ∈ s.model_details, roundDetail p.2 = p.2) :
    (_compute_aggregate [s] a b).model_details = s.model_details := by
  show mergedDetails [s] = s.model_details
  exact mergedDetails_single s hnd hround

theorem aggregateSummary_active_time (d : PyDate) (records : List Record) :
    (aggregateSummary d records).active_time =
      roundDp 2 (_metric_sum records "active_time.total" [] / 3600) := rfl

theorem aggregateSummary_total_cost (d : PyDate) (records : List Record) :
    (aggregateSummary d records).total_cost =
      roundDp 4 (((model_details records).map (fun p => p.2.cost)).sum) := rfl

theorem aggregateSummary_tool_calls (d : PyDate) (records : List Record) :
    (aggregateSummary d records).tool_calls =
      ((_event_records records "tool_result").length : ℤ) := rfl

theorem aggregateSummary_tool_success_rate (d : PyDate) (records : List Record) :
    (aggregateSummary d records).tool_success_rate =
      roundDp 1 (if (_event_records records "tool_result").length ≠ 0 then
        (((_event_records records "tool_result").filter toolSuccess).length : ℚ) /
          ((_event_records records "tool_result").length : ℚ) * 100
      else 0) := rfl

theorem aggregateSummary_api_calls (d : PyDate) (records : List Record) :
    (aggregateSummary d records).api_calls =
      ((_event_count records "api_request" : ℕ) : ℤ) := rfl

theorem aggregateSummary_avg_api_duration (d : PyDate) (records : List Record) :
    (aggregateSummary d records).avg_api_duration =
      roundDp 1 (_avg_attr records "api_request" "duration_ms") := rfl

theorem aggregateSummary_top_tools (d : PyDate) (records : List Record) :
    (aggregateSummary d records).top_tools =
      ⟨joinL ", ".data ((mostCommon3 (toolCounter
        (_event_records records "tool_result"))).map (fun p => p.1.data))⟩ := rfl

theorem aggregateSummary_model_breakdown (d : PyDate) (records : List Record) :
    (aggregateSummary d records).model_breakdown =
      breakdownString (model_details records) := rfl

theorem aggregateSummary_model_details (d : PyDate) (records : List Record) :
    (aggregateSummary d records).model_details = model_details records := rfl

/-- C4 (amended): over the one-day range `[d, d]` of a day with records,
`aggregate_range` returns that day's Daily Summary as its single daily
entry, and its period aggregate agrees with the Daily Summary on every
field except the reformatted `date` and the period-only
`avg_active_time_per_day` — provided the rendered strings are lossless:
every tool name is nonempty, comma-free and strip-invariant; every model
name is free of `,` and `:` and strip-invariant; and every record's
pricing-derived cost is nonnegative. (Unrestricted, the claim fails: a
tool name containing a comma changes `Top Tools` under composition.) -/
theorem C4_single_day_range_agrees (store : PyDate → List Record) (d : PyDate)
    (hne : store d ≠ [])
    (htool : ∀ r ∈ _event_records (store d) "tool_result", cleanToolName (toolName r))
    (hmodel : ∀ r ∈ _event_records (store d) "api_request", cleanModelName (recModel r))
    (hcost : ∀ r ∈ _event_records (store d) "api_request", 0 ≤ recCost r) :
    (aggregate_range store d d).daily = [aggregateSummary d (store d)] ∧
    ∃ P : PeriodSummary, (aggregate_range store d d).aggregate = some P ∧
      agreesWithDayExceptDate P (aggregateSummary d (store d)) := by
  have hagg : aggregate d (store d) = some (aggregateSummary d (store d)) := by
    unfold aggregate
    rw [if_neg (fun hemp => hne (List.isEmpty_iff.mp hemp))]
  have hdl : (dateList d d).filterMap (fun x => aggregate x (store x)) =
      [aggregateSummary d (store d)] := by
    rw [dateList_self]
    simp [hagg]
  have hdaily : (aggregate_range store d d).daily = [aggregateSummary d (store d)] := by
    simp only [aggregate_range]
    rw [hdl]
    rfl
  have haggP : (aggregate_range store d d).aggregate =
      some (_compute_aggregate [aggregateSummary d (store d)] d d) := by
    simp only [aggregate_range]
    rw [hdl]
    rfl
  refine ⟨hdaily, _compute_aggregate [aggregateSummary d (store d)] d d, haggP, ?_⟩
  obtain ⟨h1, h2, h3, h4, h5, h6, h7, h8, h9, h10, h11, h12, h13, h14⟩ :=
    compute_single_ints (aggregateSummary d (store d)) d d
  obtain ⟨hat, hcost4⟩ := compute_single_rounded (aggregateSummary d (store d)) d d
    (by rw [aggregateSummary_active_time]; exact roundDp_idem 2 _)
    (by rw [aggregateSummary_total_cost]; exact roundDp_idem 4 _)
  have hrate : (_compute_aggregate [aggregateSummary d (store d)] d d).tool_success_rate
      = (aggregateSummary d (store d)).tool_success_rate := by
    apply compute_single_rate
    · rw [aggregateSummary_tool_calls]
      exact Int.natCast_nonneg _
    · rw [aggregateSummary_tool_success_rate]
      exact roundDp_idem 1 _
    · intro h0
      rw [aggregateSummary_tool_calls] at h0
      have hlen : (_event_records (store d) "tool_result").length = 0 := by
        exact_mod_cast h0
      rw [aggregateSummary_tool_success_rate, if_neg (fun hh => hh hlen), roundDp_zero]
  have hdur : (_compute_aggregate [aggregateSummary d (store d)] d d).avg_api_duration
      = (aggregateSummary d (store d)).avg_api_duration := by
    apply compute_single_duration
    · rw [aggregateSummary_api_calls]
      exact Int.natCast_nonneg _
    · rw [aggregateSummary_avg_api_duration]
      exact roundDp_idem 1 _
    · intro h0
      rw [aggregateSummary_api_calls] at h0
      have hlen : (_event_records (store d) "api_request").length = 0 := by
        exact_mod_cast h0
      rw [aggregateSummary_avg_api_duration,
        _avg_attr_of_no_events _ _ _ (List.length_eq_zero.mp hlen), roundDp_zero]
  have htools : (_compute_aggregate [aggregateSummary d (store d)] d d).top_tools
      = (aggregateSummary d (store d)).top_tools := by
    apply compute_single_top_tools (aggregateSummary d (store d)) d d
      ((mostCommon3 (toolCounter (_event_records (store d) "tool_result"))).map Prod.fst)
    · rw [aggregateSummary_top_tools, List.map_map]
      rfl
    · exact mostCommon3_keys_nodup _ (toolCounter_keys_nodup _)
    · exact mostCommon3_len _
    · intro n hn
      obtain ⟨p, hp, rfl⟩ := List.mem_map.mp hn
      obtain ⟨r, hr, heq⟩ := toolCounter_keys_sub _ p.1
        (List.mem_map.mpr ⟨p, mostCommon3_sub _ p hp, rfl⟩)
      exact heq ▸ htool r hr
  have hbrk : (_compute_aggregate [aggregateSummary d (store d)] d d).model_breakdown
      = (aggregateSummary d (store d)).model_breakdown := by
    apply compute_single_breakdown (aggregateSummary d (store d)) d d
      ((sortByKey (model_details (store d))).map (fun p => (p.1, p.2.cost)))
    · rw [aggregateSummary_model_breakdown, List.map_map]
      rfl
    · rw [List.map_map]
      exact ((sortByKey_perm (model_details (store d))).map Prod.fst).nodup_iff.mpr
        (model_details_keys_nodup (store d))
    · exact List.Pairwise.map _ (fun x y (h : ¬ y.1 < x.1) => h)
        (sortByKey_pairwise (model_details (store d)))
    · intro p hp
      obtain ⟨q, hq, rfl⟩ := List.mem_map.mp hp
      obtain ⟨r, hr, heq⟩ := model_details_keys_models (store d) q.1
        (List.mem_map.mpr ⟨q, (sortByKey_perm _).mem_iff.mp hq, rfl⟩)
      exact heq ▸ hmodel r hr
    · intro p hp
      obtain ⟨q, hq, rfl⟩ := List.mem_map.mp hp
      exact model_details_cost_nonneg (store d) hcost q ((sortByKey_perm _).mem_iff.mp hq)
  have hdet : (_compute_aggregate [aggregateSummary d (store d)] d d).model_details
      = (aggregateSummary d (store d)).model_details := by
    apply compute_single_details
    · rw [aggregateSummary_model_details]
      exact model_details_keys_nodup (store d)
    · rw [aggregateSummary_model_details]
      exact model_details_round_fixed (store d)
  exact ⟨h1, hat, h2, h3, hcost4, h4, h5, h6, h7, h8, h9, h10, h11, h12, h13,
    hrate, htools, h14, hdur, hbrk, hdet⟩

/-- Witness for C4: the amended theorem applied to a concrete clean
one-record store on 2025-06-01, discharging every hypothesis. -/
theorem C4_single_day_range_agrees_witness :
    (aggregate_range c4Store ⟨2025, 6, 1⟩ ⟨2025, 6, 1⟩).daily =
        [aggregateSummary ⟨2025, 6, 1⟩ (c4Store ⟨2025, 6, 1⟩)] ∧
    ∃ P : PeriodSummary,
      (aggregate_range c4Store ⟨2025, 6, 1⟩ ⟨2025, 6, 1⟩).aggregate = some P ∧
      agreesWithDayExceptDate P (aggregateSummary ⟨2025, 6, 1⟩ (c4Store ⟨2025, 6, 1⟩)) :=
  C4_single_day_range_agrees c4Store ⟨2025, 6, 1⟩
    (by simp [c4Store])
    (by
      intro r hr
      rw [show _event_records (c4Store ⟨2025, 6, 1⟩) "tool_result" = [c4ToolRec]
        from rfl] at hr
      rw [List.mem_singleton.mp hr]
      exact ⟨by decide, by decide, by decide⟩)
    (by
      intro r hr
      rw [show _event_records (c4Store ⟨2025, 6, 1⟩) "api_request" = [] from rfl] at hr
      exact absurd hr (List.not_mem_nil r))
    (by
      intro r hr
      rw [show _event_records (c4Store ⟨2025, 6, 1⟩) "api_request" = [] from rfl] at hr
      exact absurd hr (List.not_mem_nil r))

end CU
